import Mathlib

/-!
Verification of the CodeVibe multi-language analysis core: a shallow
embedding of the language detector, the Python static analyzer, the
heuristic bug scanner, the auto-fix generator, and the style learner,
with theorems settling behavioural claims about them.

Python strings are modelled as Lean `String`s; `code.split('\n')` and
`'\n'.join(...)` are embedded as the char-level functions `splitLines`
and `joinLines`; floating-point confidences are modelled as exact
rationals (the source only ever compares and stores literal constants).
-/

namespace CodeVibe

/-- Whitespace characters recognised by Python `str.strip` / regex `\s`
(ASCII range, which is all the source's inputs use). -/
def isWsChar (c : Char) : Bool :=
  c = ' ' || c = '\t' || c = '\n' || c = '\r' ||
  c = Char.ofNat 11 || c = Char.ofNat 12

/-- Word characters of the regex class `\w` (ASCII range). -/
def isWordChar (c : Char) : Bool :=
  (c ≥ 'a' && c ≤ 'z') || (c ≥ 'A' && c ≤ 'Z') || (c ≥ '0' && c ≤ '9') || c = '_'

/-- Split a character list at every newline, embedding Python
`str.split('\n')`: the result always has one more part than there are
newlines, so the empty input gives one empty part. -/
def splitNl : List Char → List (List Char)
  | [] => [[]]
  | c :: rest =>
    if c = '\n' then [] :: splitNl rest
    else
      match splitNl rest with
      | [] => [[c]]
      | p :: ps => (c :: p) :: ps

/-- Join character lists with newlines, embedding Python `'\n'.join`. -/
def joinNl : List (List Char) → List Char
  | [] => []
  | [l] => l
  | l :: rest => l ++ '\n' :: joinNl rest

theorem splitNl_ne_nil (s : List Char) : splitNl s ≠ [] := by
  induction s with
  | nil => simp [splitNl]
  | cons c rest ih =>
    simp only [splitNl]
    by_cases hc : c = '\n'
    · simp [hc]
    · simp only [hc, if_false]
      cases splitNl rest <;> simp

theorem mem_splitNl_no_nl (s : List Char) :
    ∀ p ∈ splitNl s, '\n' ∉ p := by
  induction s with
  | nil =>
    intro p hp
    simp only [splitNl, List.mem_singleton] at hp
    simp [hp]
  | cons c rest ih =>
    intro p hp
    simp only [splitNl] at hp
    by_cases hc : c = '\n'
    · simp only [hc, if_true, List.mem_cons] at hp
      rcases hp with h | h
      · simp [h]
      · exact ih p h
    · simp only [hc, if_false] at hp
      cases h : splitNl rest with
      | nil => exact absurd h (splitNl_ne_nil rest)
      | cons q qs =>
        rw [h, List.mem_cons] at hp
        rcases hp with hp | hp
        · subst hp
          intro hmem
          rcases List.mem_cons.1 hmem with h1 | h1
          · exact hc h1.symm
          · exact ih q (h ▸ List.mem_cons_self q qs) h1
        · exact ih p (h ▸ List.mem_cons_of_mem q hp)

theorem splitNl_joinNl (ls : List (List Char)) (hne : ls ≠ [])
    (hnl : ∀ l ∈ ls, '\n' ∉ l) : splitNl (joinNl ls) = ls := by
  induction ls with
  | nil => exact absurd rfl hne
  | cons l rest ih =>
    cases rest with
    | nil =>
      simp only [joinNl]
      have hl : '\n' ∉ l := hnl l (List.mem_cons_self l [])
      clear hne hnl ih
      induction l with
      | nil => simp [splitNl]
      | cons c cs ihc =>
        have hc : c ≠ '\n' := fun h => hl (h ▸ List.mem_cons_self c cs)
        have hcs : '\n' ∉ cs := fun h => hl (List.mem_cons_of_mem c h)
        simp only [splitNl, hc, if_false, ihc hcs]
    | cons l2 rest2 =>
      have hjoin : joinNl (l :: l2 :: rest2) = l ++ '\n' :: joinNl (l2 :: rest2) := rfl
      rw [hjoin]
      have hl : '\n' ∉ l := hnl l (List.mem_cons_self l _)
      have htail : splitNl (joinNl (l2 :: rest2)) = l2 :: rest2 := by
        refine ih (by simp) ?_
        intro p hp
        exact hnl p (List.mem_cons_of_mem l hp)
      clear hne hnl ih hjoin
      induction l with
      | nil => simp [splitNl, htail]
      | cons c cs ihc =>
        have hc : c ≠ '\n' := fun h => hl (h ▸ List.mem_cons_self c cs)
        have hcs : '\n' ∉ cs := fun h => hl (List.mem_cons_of_mem c h)
        have hrec := ihc hcs
        simp only [List.cons_append, splitNl, hc, if_false, List.append_eq, hrec]

/-- Embedding of Python `code.split('\n')`. -/
def splitLines (s : String) : List String :=
  (splitNl s.data).map List.asString

/-- Embedding of Python `'\n'.join(lines)`. -/
def joinLines (ls : List String) : String :=
  ⟨joinNl (ls.map String.data)⟩

theorem splitLines_joinLines (ls : List String) (hne : ls ≠ [])
    (hnl : ∀ l ∈ ls, '\n' ∉ l.data) : splitLines (joinLines ls) = ls := by
  unfold splitLines joinLines
  rw [show (String.mk (joinNl (ls.map String.data))).data = joinNl (ls.map String.data) from rfl]
  rw [splitNl_joinNl (ls.map String.data) (by simpa using hne)
    (by intro l hl; rcases List.mem_map.1 hl with ⟨x, hx, rfl⟩; exact hnl x hx)]
  rw [List.map_map]
  have hcomp : (List.asString ∘ String.data) = id := by
    funext s; cases s; rfl
  rw [hcomp, List.map_id]

theorem mem_splitLines_no_nl (s : String) :
    ∀ l ∈ splitLines s, '\n' ∉ l.data := by
  intro l hl
  rcases List.mem_map.1 hl with ⟨p, hp, rfl⟩
  exact mem_splitNl_no_nl s.data p hp

/-- Embedding of Python `str.rstrip()` (no argument: strip whitespace). -/
def pyRstrip (s : String) : String :=
  ⟨(s.data.reverse.dropWhile isWsChar).reverse⟩

/-- Embedding of Python `str.lstrip()`. -/
def pyLstrip (s : String) : String :=
  ⟨s.data.dropWhile isWsChar⟩

/-- Embedding of Python `str.strip()`. -/
def pyStrip (s : String) : String :=
  ⟨((s.data.dropWhile isWsChar).reverse.dropWhile isWsChar).reverse⟩

theorem pyRstrip_no_new_char (s : String) (c : Char) (h : c ∉ s.data) :
    c ∉ (pyRstrip s).data := by
  unfold pyRstrip
  intro hmem
  simp only [List.mem_reverse] at hmem
  have := (List.dropWhile_sublist isWsChar).subset hmem
  simp only [List.mem_reverse] at this
  exact h this

theorem pyRstrip_idem (s : String) : pyRstrip (pyRstrip s) = pyRstrip s := by
  unfold pyRstrip
  simp only [List.reverse_reverse]
  rw [List.dropWhile_idempotent]

/-- Embedding of the Python substring test `pat in hay`. -/
def hasSubAux (pat : List Char) : List Char → Bool
  | [] => pat.isPrefixOf []
  | c :: rest => pat.isPrefixOf (c :: rest) || hasSubAux pat rest

def hasSub (hay pat : String) : Bool :=
  hasSubAux pat.data hay.data

/-- Embedding of Python `str.count(pat)` (non-overlapping occurrence
count; only ever used with non-empty literals in the source). -/
def countSubAux (pat : List Char) : List Char → Nat
  | [] => 0
  | c :: rest =>
    if pat.isPrefixOf (c :: rest) then
      1 + countSubAux pat (rest.drop (pat.length - 1))
    else
      countSubAux pat rest
termination_by s => s.length
decreasing_by
  · simp only [List.length_cons]
    have := List.length_drop (pat.length - 1) rest
    omega
  · simp [List.length_cons]

def countSub (hay pat : String) : Nat :=
  countSubAux pat.data hay.data

/-! ### Language detection (`language_analyzer.py`) -/

/-- The `Language` enumeration of `language_analyzer.py`. -/
inductive Language
  | python
  | javascript
  | typescript
  | java
  | cpp
deriving DecidableEq

/-- Embedding of Python `str.lower()` (character-wise lowercasing; the
enum values are ASCII). -/
def pyLower (s : String) : String :=
  ⟨s.data.map Char.toLower⟩

/-- Embedding of the `Language(value)` enum lookup (by string value). -/
def Language.ofValue? (s : String) : Option Language :=
  if s = "python" then some .python
  else if s = "javascript" then some .javascript
  else if s = "typescript" then some .typescript
  else if s = "java" then some .java
  else if s = "cpp" then some .cpp
  else none

/-- The heuristic branch of `detect_language` (the part reached when no
usable hint is given), translated condition for condition; note the
Python operator precedence: `"class " in code and ":" in code` binds
tighter than the surrounding `or`s, and likewise for `": " ... and "=>"`. -/
def detectHeuristic (code : String) : Language :=
  if hasSub code "def " || hasSub code "import " || (hasSub code "class " && hasSub code ":") then
    .python
  else if hasSub code "function " || hasSub code "const " || hasSub code "let " || hasSub code "var " then
    if hasSub code "interface " || (hasSub code ": " && hasSub code "=>") then .typescript
    else .javascript
  else if hasSub code "public class " || hasSub code "private " || hasSub code "void main" then
    .java
  else if hasSub code "#include" || hasSub code "std::" || hasSub code "cout" then
    .cpp
  else
    .python

/-- Embedding of `detect_language(code_content, hint)`: a truthy hint
that parses as a `Language` value (after lowercasing) wins; otherwise
the heuristic runs. -/
def detect_language (code : String) (hint : Option String) : Language :=
  match hint with
  | none => detectHeuristic code
  | some h =>
    if h = "" then detectHeuristic code
    else
      match Language.ofValue? (pyLower h) with
      | some lang => lang
      | none => detectHeuristic code

/-- Modelled from the spec sentence for C5: the detector as an ordered
rule list, one entry per spec rule (predicate, result), first match
wins, defaulting to Python.  Used to compare the spec's rule-by-rule
description with the code's `if`/`elif` chain. -/
def specRules : List ((String → Bool) × (String → Language)) :=
  [ (fun code => hasSub code "def " || hasSub code "import " ||
      (hasSub code "class " && hasSub code ":"), fun _ => .python),
    (fun code => hasSub code "function " || hasSub code "const " ||
      hasSub code "let " || hasSub code "var ",
     fun code =>
       if hasSub code "interface " || (hasSub code ": " && hasSub code "=>") then .typescript
       else .javascript),
    (fun code => hasSub code "public class " || hasSub code "private " ||
      hasSub code "void main", fun _ => .java),
    (fun code => hasSub code "#include" || hasSub code "std::" ||
      hasSub code "cout", fun _ => .cpp) ]

def firstRule : List ((String → Bool) × (String → Language)) → String → Language
  | [], _ => .python
  | (p, r) :: rest, code => if p code then r code else firstRule rest code

def detectSpec (code : String) : Language :=
  firstRule specRules code

/-! ### Decimal rendering of the fix counter

The source builds fix ids with the f-string `f"fix_{self.fix_counter}"`;
the decimal rendering is embedded via `Nat.repr`.  To reason about id
uniqueness we prove `Nat.repr` injective, going through a structural
reformulation `decChars` of `Nat.toDigitsCore`. -/

def decChars (n : Nat) : List Char :=
  if _h : n < 10 then [Nat.digitChar n]
  else decChars (n / 10) ++ [Nat.digitChar (n % 10)]
termination_by n
decreasing_by
  exact Nat.div_lt_self (by omega) (by omega)

theorem decChars_def (n : Nat) :
    decChars n =
      if n < 10 then [Nat.digitChar n]
      else decChars (n / 10) ++ [Nat.digitChar (n % 10)] := by
  rw [decChars]
  by_cases h : n < 10 <;> simp [h]

theorem decChars_ne_nil (n : Nat) : decChars n ≠ [] := by
  rw [decChars_def n]
  by_cases h : n < 10 <;> simp [h]

theorem toDigitsCore_eq_decChars (fuel n : Nat) (acc : List Char) (h : n < fuel) :
    Nat.toDigitsCore 10 fuel n acc = decChars n ++ acc := by
  induction fuel generalizing n acc with
  | zero => omega
  | succ f ih =>
    rw [Nat.toDigitsCore]
    by_cases hdiv : n / 10 = 0
    · have hn : n < 10 := by omega
      have hmod : n % 10 = n := Nat.mod_eq_of_lt hn
      simp only [hdiv, if_true, hmod]
      rw [decChars_def n, if_pos hn]
      rfl
    · have hn : ¬ n < 10 := by
        intro hlt
        exact hdiv (Nat.div_eq_of_lt hlt)
      simp only [hdiv, if_false]
      have hlt : n / 10 < f := by
        have h1 : 0 < n := by omega
        have := Nat.div_lt_self h1 (show 1 < 10 by omega)
        omega
      rw [ih (n / 10) (Nat.digitChar (n % 10) :: acc) hlt]
      rw [decChars_def n, if_neg hn]
      simp

theorem natRepr_eq_decChars (n : Nat) : Nat.repr n = (decChars n).asString := by
  unfold Nat.repr Nat.toDigits
  rw [toDigitsCore_eq_decChars (n + 1) n [] (by omega)]
  simp

theorem digitChar_inj_lt : ∀ m < 10, ∀ n < 10, Nat.digitChar m = Nat.digitChar n → m = n := by
  decide

theorem decChars_inj : ∀ m n : Nat, decChars m = decChars n → m = n := by
  intro m
  induction m using Nat.strong_induction_on with
  | _ m ih =>
    intro n heq
    rw [decChars_def m, decChars_def n] at heq
    by_cases hm : m < 10 <;> by_cases hn : n < 10
    · rw [if_pos hm, if_pos hn] at heq
      exact digitChar_inj_lt m hm n hn (List.singleton_injective heq)
    · rw [if_pos hm, if_neg hn] at heq
      have h1 : ([Nat.digitChar m] : List Char).length = 1 := rfl
      rw [heq] at h1
      simp only [List.length_append, List.length_singleton] at h1
      have := List.length_pos.2 (decChars_ne_nil (n / 10))
      omega
    · rw [if_neg hm, if_pos hn] at heq
      have h1 : ([Nat.digitChar n] : List Char).length = 1 := rfl
      rw [← heq] at h1
      simp only [List.length_append, List.length_singleton] at h1
      have := List.length_pos.2 (decChars_ne_nil (m / 10))
      omega
    · rw [if_neg hm, if_neg hn] at heq
      have hparts := List.append_inj' heq (by rfl)
      have hdiv : m / 10 = n / 10 := by
        have hlt : m / 10 < m := Nat.div_lt_self (by omega) (by omega)
        exact ih (m / 10) hlt (n / 10) hparts.1
      have hmod : m % 10 = n % 10 := by
        have := List.singleton_injective hparts.2
        exact digitChar_inj_lt (m % 10) (Nat.mod_lt m (by omega))
          (n % 10) (Nat.mod_lt n (by omega)) this
      omega

theorem natRepr_inj (m n : Nat) (h : Nat.repr m = Nat.repr n) : m = n := by
  rw [natRepr_eq_decChars, natRepr_eq_decChars] at h
  apply decChars_inj
  have : (decChars m).asString.data = (decChars n).asString.data := by rw [h]
  simpa [List.asString] using this

/-- Embedding of the f-string `f"fix_{counter}"`. -/
def mkFixId (n : Nat) : String :=
  "fix_" ++ Nat.repr n

theorem mkFixId_inj (m n : Nat) (h : mkFixId m = mkFixId n) : m = n := by
  unfold mkFixId at h
  apply natRepr_inj
  have hdata : ("fix_" ++ Nat.repr m).data = ("fix_" ++ Nat.repr n).data := by rw [h]
  rw [String.data_append, String.data_append] at hdata
  have := List.append_cancel_left hdata
  cases hm : Nat.repr m
  cases hn : Nat.repr n
  rw [hm, hn] at this
  simp only at this
  rw [this]

/-! ### Regular expressions of the source, embedded as matchers

Each compiled pattern of the source is embedded as a matcher that, at a
given position in the character list, either fails or returns the
remainder after the match.  Searching and substitution scan positions
left to right, as `re.search` / `re.sub` do.  Greedy `\s*`, `\s+`, `\w+`
pieces are implemented with `dropWhile`/`takeWhile`: in every pattern
the following literal begins with a character outside the repeated
class, so the greedy match never backtracks. -/

/-- Matcher for the alternative `None\s*==`. -/
def matchNoneEqAt (s : List Char) : Option (List Char) :=
  if "None".data.isPrefixOf s then
    match (s.drop 4).dropWhile isWsChar with
    | '=' :: '=' :: rr => some rr
    | _ => none
  else none

/-- Matcher for `==\s*None` alone (the `ml_engine.py` bug pattern). -/
def matchEqNoneMLAt (s : List Char) : Option (List Char) :=
  match s with
  | '=' :: '=' :: rest =>
    if "None".data.isPrefixOf (rest.dropWhile isWsChar) then
      some ((rest.dropWhile isWsChar).drop 4)
    else none
  | _ => none

/-- Matcher for `==\s*None|None\s*==` (the `auto_fixer.py` None-comparison
pattern); the first alternative is tried first, as `re` does. -/
def matchEqNoneAt (s : List Char) : Option (List Char) :=
  match matchEqNoneMLAt s with
  | some r => some r
  | none => matchNoneEqAt s

/-- Matcher for `except\s*:`. -/
def matchExceptAt (s : List Char) : Option (List Char) :=
  if "except".data.isPrefixOf s then
    match (s.drop 6).dropWhile isWsChar with
    | ':' :: rr => some rr
    | _ => none
  else none

/-- Matcher for `==(?!=)`. -/
def matchLooseEqAt : List Char → Option (List Char)
  | '=' :: '=' :: rest => if rest.head? = some '=' then none else some rest
  | _ => none

/-- `re.search(pat, s) is not None`, scanning match positions left to
right (the position at the very end included). -/
def searchAny (matchAt : List Char → Option (List Char)) : List Char → Bool
  | [] => (matchAt []).isSome
  | c :: rest => (matchAt (c :: rest)).isSome || searchAny matchAt rest

/-- `re.sub(pat, repl, s)`: replace every non-overlapping leftmost
match.  The proof argument `hm` states that a match starting at a
position consumes at least one character, which bounds the recursion. -/
def subAll (matchAt : List Char → Option (List Char))
    (hm : ∀ c rest rem, matchAt (c :: rest) = some rem → rem.length ≤ rest.length)
    (repl : List Char) : List Char → List Char
  | [] => []
  | c :: rest =>
    match hmatch : matchAt (c :: rest) with
    | some rem => repl ++ subAll matchAt hm repl rem
    | none => c :: subAll matchAt hm repl rest
termination_by s => s.length
decreasing_by
  · exact Nat.lt_succ_of_le (hm c rest rem hmatch)
  · simp

theorem dropWhile_length_le (p : Char → Bool) (l : List Char) :
    (l.dropWhile p).length ≤ l.length :=
  (List.dropWhile_sublist p).length_le

theorem matchNoneEqAt_shrink (c : Char) (rest rem : List Char)
    (h : matchNoneEqAt (c :: rest) = some rem) : rem.length ≤ rest.length := by
  unfold matchNoneEqAt at h
  split at h
  · split at h
    · rename_i heq
      cases h
      have h1 := dropWhile_length_le isWsChar ((c :: rest).drop 4)
      rw [heq] at h1
      simp only [List.length_cons, List.length_drop, List.length_cons] at h1
      omega
    · exact absurd h (by simp)
  · exact absurd h (by simp)

theorem matchEqNoneMLAt_shrink (c : Char) (rest rem : List Char)
    (h : matchEqNoneMLAt (c :: rest) = some rem) : rem.length ≤ rest.length := by
  unfold matchEqNoneMLAt at h
  split at h
  · rename_i rest2 heq
    split at h
    · cases h
      cases heq
      have h1 := dropWhile_length_le isWsChar rest2
      simp only [List.length_cons, List.length_drop]
      omega
    · exact absurd h (by simp)
  · exact absurd h (by simp)

theorem matchEqNoneAt_shrink (c : Char) (rest rem : List Char)
    (h : matchEqNoneAt (c :: rest) = some rem) : rem.length ≤ rest.length := by
  unfold matchEqNoneAt at h
  split at h
  · rename_i heq
    cases h
    exact matchEqNoneMLAt_shrink c rest rem heq
  · exact matchNoneEqAt_shrink c rest rem h

theorem matchExceptAt_shrink (c : Char) (rest rem : List Char)
    (h : matchExceptAt (c :: rest) = some rem) : rem.length ≤ rest.length := by
  unfold matchExceptAt at h
  split at h
  · split at h
    · rename_i heq
      cases h
      have h1 := dropWhile_length_le isWsChar ((c :: rest).drop 6)
      rw [heq] at h1
      simp only [List.length_cons, List.length_drop, List.length_cons] at h1
      omega
    · exact absurd h (by simp)
  · exact absurd h (by simp)

theorem matchLooseEqAt_shrink (c : Char) (rest rem : List Char)
    (h : matchLooseEqAt (c :: rest) = some rem) : rem.length ≤ rest.length := by
  unfold matchLooseEqAt at h
  split at h
  · rename_i heq
    split at h
    · exact absurd h (by simp)
    · cases h
      cases heq
      simp
  · exact absurd h (by simp)

def prevIsWord : Option Char → Bool
  | none => false
  | some c => isWordChar c

def headIsWord (l : List Char) : Bool :=
  match l.head? with
  | none => false
  | some c => isWordChar c

/-- Embedding of `re.search(r'\bvar\b', s)`: scan left to right keeping
the previous character to decide the left word boundary. -/
def varSearchAux (prev : Option Char) : List Char → Bool
  | 'v' :: 'a' :: 'r' :: rest =>
    if !prevIsWord prev && !headIsWord rest then true
    else varSearchAux (some 'v') ('a' :: 'r' :: rest)
  | c :: rest => varSearchAux (some c) rest
  | [] => false
termination_by s => s.length

/-- Embedding of `re.sub(r'\bvar\b', 'const', s)`. -/
def varSubAux (prev : Option Char) : List Char → List Char
  | 'v' :: 'a' :: 'r' :: rest =>
    if !prevIsWord prev && !headIsWord rest then
      'c' :: 'o' :: 'n' :: 's' :: 't' :: varSubAux (some 'r') rest
    else 'v' :: varSubAux (some 'v') ('a' :: 'r' :: rest)
  | c :: rest => c :: varSubAux (some c) rest
  | [] => []
termination_by s => s.length

/-- Split a character list at the last occurrence of `ch`, returning
`some (before, after)` such that the input is `before ++ ch :: after`. -/
def lastSplit (ch : Char) : List Char → Option (List Char × List Char)
  | [] => none
  | c :: rest =>
    match lastSplit ch rest with
    | some (b, a) => some (c :: b, a)
    | none => if c = ch then some ([], rest) else none

/-- Try `for\s+(\w+)\s+in\s+(.+):` at this position; on success return
the two captured groups (loop variable, iterable expression).  The
greedy `(.+)` followed by `:` captures everything up to the last colon
of the line. -/
def tryForInAt (s : List Char) : Option (String × String) :=
  if "for".data.isPrefixOf s then
    let r1 := s.drop 3
    if r1.takeWhile isWsChar = [] then none
    else
      let r2 := r1.dropWhile isWsChar
      let w := r2.takeWhile isWordChar
      if w = [] then none
      else
        let r3 := r2.drop w.length
        if r3.takeWhile isWsChar = [] then none
        else
          let r4 := r3.dropWhile isWsChar
          if "in".data.isPrefixOf r4 then
            let r5 := r4.drop 2
            if r5.takeWhile isWsChar = [] then none
            else
              let r6 := r5.dropWhile isWsChar
              match lastSplit ':' r6 with
              | some (b, _) => if b = [] then none else some (w.asString, b.asString)
              | none => none
          else none
  else none

/-- Embedding of `re.search(r'for\s+(\w+)\s+in\s+(.+):', line)`,
leftmost position first, returning the captured groups. -/
def findForIn : List Char → Option (String × String)
  | [] => none
  | c :: rest =>
    match tryForInAt (c :: rest) with
    | some g => some g
    | none => findForIn rest

/-- Try `\.append\((.+)\)` at this position, returning the capture. -/
def tryAppendAt (s : List Char) : Option String :=
  if ".append(".data.isPrefixOf s then
    match lastSplit ')' (s.drop 8) with
    | some (b, _) => if b = [] then none else some b.asString
    | none => none
  else none

/-- Embedding of `re.search(r'\.append\((.+)\)', line)`. -/
def findAppend : List Char → Option String
  | [] => none
  | c :: rest =>
    match tryAppendAt (c :: rest) with
    | some g => some g
    | none => findAppend rest

/-! String-level wrappers for the individual source patterns. -/

def searchEqNone (line : String) : Bool := searchAny matchEqNoneAt line.data

def searchEqNoneML (line : String) : Bool := searchAny matchEqNoneMLAt line.data

def searchBareExcept (line : String) : Bool := searchAny matchExceptAt line.data

def searchLooseEq (line : String) : Bool := searchAny matchLooseEqAt line.data

def searchVarWord (line : String) : Bool := varSearchAux none line.data

def subEqNone (line : String) : String :=
  ⟨subAll matchEqNoneAt matchEqNoneAt_shrink "is None".data line.data⟩

def subBareExcept (line : String) : String :=
  ⟨subAll matchExceptAt matchExceptAt_shrink "except Exception:".data line.data⟩

def subLooseEq (line : String) : String :=
  ⟨subAll matchLooseEqAt matchLooseEqAt_shrink "===".data line.data⟩

def subVarConst (line : String) : String :=
  ⟨varSubAux none line.data⟩

/-! ### Auto-fix generator (`auto_fixer.py`) -/

/-- The `FixType` enumeration. -/
inductive FixType
  | simple
  | refactor
  | performance
  | security
  | style
deriving DecidableEq

/-- The `FixSuggestion` dataclass; `confidence` is an exact rational
standing for the float constants of the source. -/
structure FixSuggestion where
  fix_id : String
  fix_type : FixType
  title : String
  description : String
  line_start : Nat
  line_end : Nat
  before_code : String
  after_code : String
  diff : String
  confidence : ℚ
  auto_applicable : Bool
deriving DecidableEq

/-- A single apostrophe, written without an apostrophe literal. -/
def aq (s : String) : String :=
  Char.toString (Char.ofNat 39) ++ s ++ Char.toString (Char.ofNat 39)

/-- Embedding of `AutoFixer._generate_diff` (the `line_no` argument is
unused in the source as well). -/
def generate_diff (before after : String) (_line_no : Nat) : String :=
  if after = "" then "- " ++ before
  else if before = after then "  " ++ before
  else "- " ++ before ++ "\n+ " ++ after

/-- One `ast.Import`/`ast.ImportFrom` alias collected by
`_fix_unused_imports`: the bound name and the statement line. -/
structure PyImport where
  name : String
  lineno : Nat
deriving DecidableEq

/-- One `ast.FunctionDef`/`ast.ClassDef` node as consumed by
`_fix_missing_docstrings`. -/
structure PyDefNode where
  name : String
  lineno : Nat
  isFunction : Bool
  hasDocstring : Bool
deriving DecidableEq

/-- The outcome of `ast.parse(code)` as consumed by the two AST-based
detectors: the collected import aliases and def/class nodes.  `ast` is
Python's standard library, outside this repository, so it enters the
embedding as an oracle argument; `none` models a `SyntaxError`. -/
structure PyAst where
  imports : List PyImport
  defs : List PyDefNode
deriving DecidableEq

/-- The shared loop shape of every detector: walk a list, each step
optionally bumping the fix counter and optionally emitting one fix. -/
def chainFold {α : Type} (f : α → Nat → Option FixSuggestion × Nat) :
    List α → Nat → List FixSuggestion × Nat
  | [], c => ([], c)
  | a :: as, c =>
    let p := f a c
    let r := chainFold f as p.2
    (p.1.toList ++ r.1, r.2)

/-- Embedding of `AutoFixer._fix_unused_imports`: an import whose name
occurs on exactly one line (the import line itself) is flagged. -/
def unusedImportStep (lines : List String) (imp : PyImport) (c : Nat) :
    Option FixSuggestion × Nat :=
      let usage := (lines.filter (fun l => hasSub l imp.name)).length
      if usage = 1 then
        let c2 := c + 1
        let before := lines.getD (imp.lineno - 1) ""
        (some {
          fix_id := mkFixId c2
          fix_type := .simple
          title := "Remove unused import " ++ aq imp.name
          description := "Import " ++ aq imp.name ++ " is not used in the code"
          line_start := imp.lineno
          line_end := imp.lineno
          before_code := before
          after_code := ""
          diff := generate_diff before "" imp.lineno
          confidence := 0.9
          auto_applicable := true }, c2)
  else (none, c)

def fix_unused_imports (astO : Option PyAst) (lines : List String) (c : Nat) :
    List FixSuggestion × Nat :=
  match astO with
  | none => ([], c)
  | some tree => chainFold (unusedImportStep lines) tree.imports c

/-- The per-line step of `AutoFixer._fix_trailing_whitespace`
(`p` is the 1-based `enumerate` pair). -/
def trailStep (p : Nat × String) (c : Nat) : Option FixSuggestion × Nat :=
    if p.2 ≠ pyRstrip p.2 then
      let c2 := c + 1
      (some {
        fix_id := mkFixId c2
        fix_type := .style
        title := "Remove trailing whitespace on line " ++ Nat.repr p.1
        description := "Trailing whitespace should be removed"
        line_start := p.1
        line_end := p.1
        before_code := p.2
        after_code := pyRstrip p.2
        diff := generate_diff p.2 (pyRstrip p.2) p.1
        confidence := 1
        auto_applicable := true }, c2)
  else (none, c)

/-- Embedding of `AutoFixer._fix_trailing_whitespace`. -/
def fix_trailing_whitespace (lines : List String) (c : Nat) :
    List FixSuggestion × Nat :=
  chainFold trailStep (List.enumFrom 1 lines) c

/-- The per-node step of `AutoFixer._fix_missing_docstrings`. -/
def docStep (lines : List String) (d : PyDefNode) (c : Nat) :
    Option FixSuggestion × Nat :=
      if !d.hasDocstring then
        let c2 := c + 1
        let line := lines.getD (d.lineno - 1) ""
        let indent := line.length - (pyLstrip line).length
        let doc := String.mk (List.replicate (indent + 4) ' ') ++
          "\"\"\"TODO: Add " ++ (if d.isFunction then "function" else "class") ++
          " description\"\"\""
        let after := line ++ "\n" ++ doc
        (some {
          fix_id := mkFixId c2
          fix_type := .style
          title := "Add docstring to " ++ d.name
          description := (if d.isFunction then "Function" else "Class") ++ " " ++
            aq d.name ++ " is missing a docstring"
          line_start := d.lineno
          line_end := d.lineno
          before_code := line
          after_code := after
          diff := generate_diff line after d.lineno
          confidence := 0.8
          auto_applicable := false }, c2)
  else (none, c)

/-- Embedding of `AutoFixer._fix_missing_docstrings`. -/
def fix_missing_docstrings (astO : Option PyAst) (lines : List String) (c : Nat) :
    List FixSuggestion × Nat :=
  match astO with
  | none => ([], c)
  | some tree => chainFold (docStep lines) tree.defs c

/-- The per-line step of `AutoFixer._fix_none_comparison`. -/
def noneCmpStep (p : Nat × String) (c : Nat) : Option FixSuggestion × Nat :=
    if searchEqNone p.2 then
      let c2 := c + 1
      (some {
        fix_id := mkFixId c2
        fix_type := .style
        title := "Use " ++ aq "is None" ++ " instead of " ++ aq "== None" ++
          " on line " ++ Nat.repr p.1
        description := "Use " ++ aq "is" ++ " for None comparison instead of " ++ aq "=="
        line_start := p.1
        line_end := p.1
        before_code := p.2
        after_code := subEqNone p.2
        diff := generate_diff p.2 (subEqNone p.2) p.1
        confidence := 1
        auto_applicable := true }, c2)
  else (none, c)

/-- Embedding of `AutoFixer._fix_none_comparison`. -/
def fix_none_comparison (lines : List String) (c : Nat) :
    List FixSuggestion × Nat :=
  chainFold noneCmpStep (List.enumFrom 1 lines) c

/-- The per-line step of `AutoFixer._fix_bare_except`. -/
def exceptStep (p : Nat × String) (c : Nat) : Option FixSuggestion × Nat :=
    if searchBareExcept p.2 then
      let c2 := c + 1
      (some {
        fix_id := mkFixId c2
        fix_type := .refactor
        title := "Replace bare except on line " ++ Nat.repr p.1
        description := "Bare except catches all exceptions including system exits"
        line_start := p.1
        line_end := p.1
        before_code := p.2
        after_code := subBareExcept p.2
        diff := generate_diff p.2 (subBareExcept p.2) p.1
        confidence := 0.9
        auto_applicable := true }, c2)
  else (none, c)

/-- Embedding of `AutoFixer._fix_bare_except`. -/
def fix_bare_except (lines : List String) (c : Nat) :
    List FixSuggestion × Nat :=
  chainFold exceptStep (List.enumFrom 1 lines) c

/-- The per-index step of `AutoFixer._suggest_list_comprehension`: note
the counter bump that happens as soon as the substring conditions hold,
before the regexes are consulted. -/
def listCompStep (lines : List String) (i : Nat) (c : Nat) :
    Option FixSuggestion × Nat :=
    let li := lines.getD i ""
    let li1 := lines.getD (i + 1) ""
    if hasSub li "for " && hasSub li " in " && hasSub li1 ".append(" then
      let c2 := c + 1
      match findForIn li.data with
      | some g =>
        match findAppend li1.data with
        | some expr =>
          let before := li ++ "\n" ++ li1
          let after := "    result = [" ++ expr ++ " for " ++ g.1 ++ " in " ++ g.2 ++ "]"
          (some {
            fix_id := mkFixId c2
            fix_type := .performance
            title := "Use list comprehension on line " ++ Nat.repr (i + 1)
            description := "List comprehension is more Pythonic and faster"
            line_start := i + 1
            line_end := i + 2
            before_code := before
            after_code := after
            diff := generate_diff before after (i + 1)
            confidence := 0.7
            auto_applicable := false }, c2)
        | none => (none, c2)
      | none => (none, c2)
  else (none, c)

/-- Embedding of `AutoFixer._suggest_list_comprehension`: note the loop
bound `range(len(lines) - 2)`, which stops two lines before the end. -/
def suggest_list_comprehension (lines : List String) (c : Nat) :
    List FixSuggestion × Nat :=
  chainFold (listCompStep lines) (List.range (lines.length - 2)) c

/-- The per-line step of `AutoFixer._fix_loose_equality`. -/
def looseEqStep (p : Nat × String) (c : Nat) : Option FixSuggestion × Nat :=
    if searchLooseEq p.2 then
      let c2 := c + 1
      (some {
        fix_id := mkFixId c2
        fix_type := .style
        title := "Use strict equality (===) on line " ++ Nat.repr p.1
        description := "Use === instead of == for strict equality"
        line_start := p.1
        line_end := p.1
        before_code := p.2
        after_code := subLooseEq p.2
        diff := generate_diff p.2 (subLooseEq p.2) p.1
        confidence := 1
        auto_applicable := true }, c2)
  else (none, c)

/-- Embedding of `AutoFixer._fix_loose_equality`. -/
def fix_loose_equality (lines : List String) (c : Nat) :
    List FixSuggestion × Nat :=
  chainFold looseEqStep (List.enumFrom 1 lines) c

/-- The per-line step of `AutoFixer._fix_var_usage`. -/
def varStep (p : Nat × String) (c : Nat) : Option FixSuggestion × Nat :=
    if searchVarWord p.2 then
      let c2 := c + 1
      (some {
        fix_id := mkFixId c2
        fix_type := .style
        title := "Replace " ++ aq "var" ++ " with " ++ aq "const" ++
          " on line " ++ Nat.repr p.1
        description := "Use const or let instead of var for block scoping"
        line_start := p.1
        line_end := p.1
        before_code := p.2
        after_code := subVarConst p.2
        diff := generate_diff p.2 (subVarConst p.2) p.1
        confidence := 0.8
        auto_applicable := false }, c2)
  else (none, c)

/-- Embedding of `AutoFixer._fix_var_usage`. -/
def fix_var_usage (lines : List String) (c : Nat) :
    List FixSuggestion × Nat :=
  chainFold varStep (List.enumFrom 1 lines) c

/-- Embedding of `AutoFixer._analyze_python` (six detectors in order,
threading the fix counter). -/
def analyze_python (astO : Option PyAst) (code : String) (c : Nat) :
    List FixSuggestion × Nat :=
  let lines := splitLines code
  let r1 := fix_unused_imports astO lines c
  let r2 := fix_trailing_whitespace lines r1.2
  let r3 := fix_missing_docstrings astO lines r2.2
  let r4 := fix_none_comparison lines r3.2
  let r5 := fix_bare_except lines r4.2
  let r6 := suggest_list_comprehension lines r5.2
  (r1.1 ++ r2.1 ++ r3.1 ++ r4.1 ++ r5.1 ++ r6.1, r6.2)

/-- Embedding of `AutoFixer._analyze_javascript`. -/
def analyze_javascript (code : String) (c : Nat) :
    List FixSuggestion × Nat :=
  let lines := splitLines code
  let r1 := fix_loose_equality lines c
  let r2 := fix_var_usage lines r1.2
  (r1.1 ++ r2.1, r2.2)

/-- Embedding of `AutoFixer.analyze_code`: the state is the instance's
`fix_counter`, threaded in and out. -/
def analyze_code (code language : String) (astO : Option PyAst) (c : Nat) :
    List FixSuggestion × Nat :=
  if language = "python" then analyze_python astO code c
  else if language = "javascript" || language = "typescript" then analyze_javascript code c
  else ([], c)

/-- Python `list.pop(i)` for a non-negative index: `IndexError` is
modelled as `none`. -/
def popAt (l : List String) (i : Nat) : Option (List String) :=
  if i < l.length then some (l.eraseIdx i) else none

/-- `n` repetitions of `lines.pop(i)` at the same index, as the
multi-line branch of `apply_fix` performs. -/
def popAtN (l : List String) (i : Nat) : Nat → Option (List String)
  | 0 => some l
  | n + 1 =>
    match popAt l i with
    | some l2 => popAtN l2 i n
    | none => none

/-- Python `list.insert(i, a)` for a non-negative index (clamps to the
end when the index is past it). -/
def pyInsertIdx (l : List String) (i : Nat) (a : String) : List String :=
  if i ≤ l.length then l.insertIdx i a else l ++ [a]

/-- The multi-line splice loop `for i, new_line in enumerate(new_lines):
lines.insert(start + i, new_line)`. -/
def insertSeq (l : List String) (i : Nat) : List String → List String
  | [] => l
  | x :: xs => insertSeq (pyInsertIdx l i x) (i + 1) xs

/-- Embedding of `AutoFixer.apply_fix`.  Line numbers are 1-based as in
the public contract; an out-of-range index (Python `IndexError`) gives
`none`. -/
def apply_fix (code : String) (fix : FixSuggestion) : Option String :=
  let lines := splitLines code
  if fix.line_start = fix.line_end then
    if fix.after_code = "" then
      (popAt lines (fix.line_start - 1)).map joinLines
    else
      if fix.line_start - 1 < lines.length then
        some (joinLines (lines.set (fix.line_start - 1) fix.after_code))
      else none
  else
    match popAtN lines (fix.line_start - 1) (fix.line_end - fix.line_start + 1) with
    | some l2 => some (joinLines (insertSeq l2 (fix.line_start - 1) (splitLines fix.after_code)))
    | none => none

/-- Apply a list of fixes in order (each step re-splitting the code, as
repeated `apply_fix` calls do). -/
def applyAllFixes (code : String) (fs : List FixSuggestion) : Option String :=
  fs.foldlM apply_fix code

/-! ### Heuristic bug scanner (`ml_engine.py`) -/

/-- The `BugPrediction` record. -/
structure BugPrediction where
  line_number : Nat
  severity : String
  bug_type : String
  description : String
  confidence : ℚ
  suggestion : Option String
deriving DecidableEq

/-- One entry of the pattern table built by `_load_bug_patterns`; the
compiled regex is embedded as its line predicate. -/
structure BugPattern where
  fires : String → Bool
  ptype : String
  severity : String
  description : String
  suggestion : Option String

/-- Embedding of `self.bug_patterns.get(language, [])` over the table
of `_load_bug_patterns`: Python has the `==\s*None` and `except\s*:`
rules, JavaScript the `==(?!=)` rule, every other language none. -/
def bug_patterns (language : String) : List BugPattern :=
  if language = "python" then
    [ { fires := searchEqNoneML
        ptype := "comparison_error"
        severity := "medium"
        description := "Use \"is None\" instead of \"== None\""
        suggestion := some "Replace \"== None\" with \"is None\"" },
      { fires := searchBareExcept
        ptype := "bare_except"
        severity := "high"
        description := "Bare except clause catches all exceptions"
        suggestion := some "Specify exception types to catch" } ]
  else if language = "javascript" then
    [ { fires := searchLooseEq
        ptype := "loose_equality"
        severity := "medium"
        description := "Use strict equality (===) instead of loose equality (==)"
        suggestion := some "Replace \"==\" with \"===\"" } ]
  else []

/-- The inner loop of `predict_bugs`: all patterns of the language
tried against one (1-based index, line) pair. -/
def bugsForLine (language : String) (p : Nat × String) : List BugPrediction :=
  (bug_patterns language).filterMap (fun pat =>
    if pat.fires p.2 then
      some {
        line_number := p.1
        severity := pat.severity
        bug_type := pat.ptype
        description := pat.description
        confidence := 0.8
        suggestion := pat.suggestion }
    else none)

/-- Embedding of `MLEngine.predict_bugs` (the pattern-based pass; the
commented-out ML pass does not exist in the source). -/
def predict_bugs (code language : String) : List BugPrediction :=
  (List.enumFrom 1 (splitLines code)).flatMap (bugsForLine language)

/-! ### Python static analyzer (`python_analyzer.py`) -/

/-- One pylint JSON issue record, after the `.get(...)` defaulting of
`_format_issues` (the raw JSON shape is the linter boundary). -/
structure RawIssue where
  itype : String
  symbol : String
  message : String
  line : Nat
  column : Nat
deriving DecidableEq

/-- One normalized issue as produced by `_format_issues`. -/
structure FormattedIssue where
  itype : String
  symbol : String
  message : String
  line : Nat
  column : Nat
  severity : String
deriving DecidableEq

/-- Embedding of `PythonAnalyzer._map_severity`. -/
def map_severity (issue_type : String) : String :=
  if issue_type.toLower = "error" then "error"
  else if issue_type.toLower = "warning" then "warning"
  else if issue_type.toLower = "refactor" then "info"
  else if issue_type.toLower = "convention" then "info"
  else if issue_type.toLower = "fatal" then "error"
  else "info"

/-- Embedding of `PythonAnalyzer._format_issues`. -/
def format_issues (raw : List RawIssue) : List FormattedIssue :=
  raw.map (fun i =>
    { itype := i.itype
      symbol := i.symbol
      message := i.message
      line := i.line
      column := i.column
      severity := map_severity i.itype })

/-- The complexity-metric dictionary of `calculate_complexity`, as a
record (same keys, same values). -/
structure ComplexityMetrics where
  total_lines : Nat
  code_lines : Nat
  num_functions : Nat
  num_classes : Nat
  num_imports : Nat
  cyclomatic_complexity : Nat
  num_conditionals : Nat
  num_loops : Nat
deriving DecidableEq

/-- Embedding of `PythonAnalyzer.calculate_complexity`. -/
def calculate_complexity (code : String) : ComplexityMetrics :=
  let lines := splitLines code
  let num_conditionals := countSub code "if " + countSub code "elif "
  let num_loops := countSub code "for " + countSub code "while "
  { total_lines := lines.length
    code_lines := (lines.filter (fun l =>
      pyStrip l ≠ "" && !("#".data.isPrefixOf (pyStrip l).data))).length
    num_functions := countSub code "def "
    num_classes := countSub code "class "
    num_imports := countSub code "import "
    cyclomatic_complexity := 1 + num_conditionals + num_loops
    num_conditionals := num_conditionals
    num_loops := num_loops }

/-- Outcome of the pylint stdout handling inside the `try` block:
empty stdout (no parse attempted), `json.loads` failure, or a parsed
issue list.  This is the subprocess/JSON boundary of the embedding. -/
inductive JsonOutcome
  | noOutput
  | malformed
  | parsed (issues : List RawIssue)
deriving DecidableEq

/-- Outcome of the `subprocess.run` call: `TimeoutExpired`,
`FileNotFoundError` (pylint binary absent), or completion with stdout. -/
inductive LinterRun
  | timeout
  | binaryMissing
  | completed (out : JsonOutcome)
deriving DecidableEq

/-- The `AnalysisResult` object; fields start as `[]`, `{}` (here
`none`), `""`, `""` in `__init__` and are filled per the control flow
of `analyze`. -/
structure AnalysisResult where
  issues : List FormattedIssue
  complexity_metrics : Option ComplexityMetrics
  language : Option Language
  error : String
deriving DecidableEq

/-- Embedding of `PythonAnalyzer.analyze`, parameterized by the linter
subprocess outcome.  Key control-flow fact: the
`result.complexity_metrics = self.calculate_complexity(...)` line sits
inside the `try` block after `subprocess.run`, so `TimeoutExpired` and
`FileNotFoundError` jump to their handlers before it runs and the
metrics stay at the initial empty value. -/
def pythonAnalyzer_analyze (code : String) (run : LinterRun) : AnalysisResult :=
  match run with
  | .timeout =>
    { issues := []
      complexity_metrics := none
      language := some .python
      error := "Analysis timed out" }
  | .binaryMissing =>
    { issues := []
      complexity_metrics := none
      language := some .python
      error := "Pylint not installed. Install with: pip install pylint" }
  | .completed out =>
    let p : List FormattedIssue × String :=
      match out with
      | .noOutput => ([], "")
      | .malformed => ([], "Failed to parse pylint output")
      | .parsed raw => (format_issues raw, "")
    { issues := p.1
      complexity_metrics := some (calculate_complexity code)
      language := some .python
      error := p.2 }

/-! ### Style learner profile merge (`style_learner.py`) -/

/-- The per-submission style snapshot, restricted to the six values
`update_user_profile` reads (each opaque to the merge, so modelled as a
string). -/
structure StylePatterns where
  naming_convention : String
  indentation : String
  quote_style : String
  line_length : String
  comment_style : String
  import_style : String
deriving DecidableEq

/-- One `StylePattern` database row as touched by the merge. -/
structure StylePatternRow where
  user_id : Nat
  pattern_type : String
  pattern_value : String
  frequency : Nat
  confidence : ℚ
deriving DecidableEq

/-- The query filter `user_id == ... and pattern_type == ...`. -/
def rowMatches (u : Nat) (pt : String) (r : StylePatternRow) : Bool :=
  r.user_id == u && r.pattern_type == pt

/-- In-place mutation of the first matching row (`.first()` then
attribute assignment, under the session). -/
def updateFirst {α : Type} (p : α → Bool) (f : α → α) : List α → List α
  | [] => []
  | a :: as => if p a then f a :: as else a :: updateFirst p f as

/-- The `pattern_data` dict of `update_user_profile`, in its literal
insertion order. -/
def pattern_data (pats : StylePatterns) : List (String × String) :=
  [("naming", pats.naming_convention),
   ("indentation", pats.indentation),
   ("quotes", pats.quote_style),
   ("line_length", pats.line_length),
   ("comments", pats.comment_style),
   ("imports", pats.import_style)]

/-- One iteration of the merge loop: update the first matching row
(frequency + 1, confidence = min(1, frequency/10)) or append a fresh
row (frequency 1, confidence 0.1). -/
def profile_step (u : Nat) (db : List StylePatternRow) (pt val : String) :
    List StylePatternRow :=
  match db.find? (fun r => rowMatches u pt r) with
  | some _ =>
    updateFirst (fun r => rowMatches u pt r)
      (fun r =>
        let fr := r.frequency + 1
        { r with frequency := fr, confidence := min 1 ((fr : ℚ) / 10) }) db
  | none =>
    db ++ [{ user_id := u
             pattern_type := pt
             pattern_value := val
             frequency := 1
             confidence := 0.1 }]

/-- Embedding of `StyleLearner.update_user_profile` (the database
session is modelled as the row list it owns). -/
def update_user_profile (u : Nat) (pats : StylePatterns) (db : List StylePatternRow) :
    List StylePatternRow :=
  (pattern_data pats).foldl (fun d p => profile_step u d p.1 p.2) db

/-- A sequence of `analyze_code` calls against one `AutoFixer`
instance: the `fix_counter` is threaded through all of them, as the
shared instance attribute is. -/
def runAnalyses : List (String × String × Option PyAst) → Nat → List FixSuggestion × Nat
  | [], c => ([], c)
  | q :: rest, c =>
    let p := analyze_code q.1 q.2.1 q.2.2 c
    let r := runAnalyses rest p.2
    (p.1 ++ r.1, r.2)

/-! ## Claim theorems -/

/-- C1 counterexample: on a linter timeout, `analyze` leaves
`complexity_metrics` at its initial empty value (the claim asserts it
is populated with `calculate_complexity` of the code): the assignment
sits after `subprocess.run` inside the `try`, so `TimeoutExpired`
skips it. -/
theorem analyze_timeout_metrics_cex :
    (pythonAnalyzer_analyze "if x:\n    pass" LinterRun.timeout).complexity_metrics ≠
      some (calculate_complexity "if x:\n    pass") ∧
    (pythonAnalyzer_analyze "if x:\n    pass" LinterRun.timeout).error =
      "Analysis timed out" := by
  exact ⟨by simp [pythonAnalyzer_analyze], rfl⟩

/-- C1 (amended): a timeout yields `error = "Analysis timed out"` with
empty issues and EMPTY `complexity_metrics`; a missing pylint binary
yields the install-hint error, likewise with empty metrics; only the
malformed-JSON failure leaves `complexity_metrics` populated with the
surface-marker counts (the decode error is caught inside the `try`, so
execution reaches the metrics assignment). -/
theorem analyze_failure_modes (code : String) :
    (pythonAnalyzer_analyze code LinterRun.timeout).error = "Analysis timed out" ∧
    (pythonAnalyzer_analyze code LinterRun.timeout).issues = [] ∧
    (pythonAnalyzer_analyze code LinterRun.timeout).complexity_metrics = none ∧
    (pythonAnalyzer_analyze code LinterRun.binaryMissing).error =
      "Pylint not installed. Install with: pip install pylint" ∧
    (pythonAnalyzer_analyze code LinterRun.binaryMissing).issues = [] ∧
    (pythonAnalyzer_analyze code LinterRun.binaryMissing).complexity_metrics = none ∧
    (pythonAnalyzer_analyze code (LinterRun.completed JsonOutcome.malformed)).error =
      "Failed to parse pylint output" ∧
    (pythonAnalyzer_analyze code (LinterRun.completed JsonOutcome.malformed)).issues = [] ∧
    (pythonAnalyzer_analyze code (LinterRun.completed JsonOutcome.malformed)).complexity_metrics =
      some (calculate_complexity code) :=
  ⟨rfl, rfl, rfl, rfl, rfl, rfl, rfl, rfl, rfl⟩

/-- C2: a hint that lowercases to one of the five Language values wins
unconditionally, whatever the code content; a hint that does not parse
is ignored and detection proceeds exactly as with no hint. -/
theorem hint_precedence (code h : String) :
    (∀ t : Language, Language.ofValue? (pyLower h) = some t →
      detect_language code (some h) = t) ∧
    (Language.ofValue? (pyLower h) = none →
      detect_language code (some h) = detect_language code none) := by
  constructor
  · intro t ht
    by_cases h0 : h = ""
    · subst h0
      have hnone : Language.ofValue? (pyLower "") = none := rfl
      rw [hnone] at ht
      exact absurd ht (by simp)
    · simp only [detect_language, h0, if_false]
      rw [ht]
  · intro hn
    by_cases h0 : h = ""
    · simp [detect_language, h0]
    · simp only [detect_language, h0, if_false]
      rw [hn]

/-- C2 witness: a concrete uppercase hint on JavaScript-looking code
still gives Python, and a garbage hint falls back to the heuristic. -/
theorem hint_precedence_witness :
    detect_language "const x = 1;" (some "PYTHON") = Language.python ∧
    detect_language "def f():" (some "elvish") = detect_language "def f():" none :=
  ⟨(hint_precedence "const x = 1;" "PYTHON").1 Language.python (by decide),
   (hint_precedence "def f():" "elvish").2 (by decide)⟩

/-- C5: with no usable hint, the code's `if`/`elif` chain computes
exactly the ordered first-match rule list of the spec (Python markers
with the `:` co-occurrence attached to `class `; then JS markers
refined to TypeScript; then Java; then C++; default Python). -/
theorem heuristic_matches_spec_rules (code : String) :
    detect_language code none = detectSpec code := by
  simp only [detect_language, detectSpec, specRules, firstRule, detectHeuristic]

theorem popAt_in_range (l : List String) (i : Nat) (h : i < l.length) :
    popAt l i = some (l.eraseIdx i) := by
  simp [popAt, h]

theorem popAtN_eq (l : List String) (i : Nat) (n : Nat) (h : i + n ≤ l.length) :
    popAtN l i n = some (l.take i ++ l.drop (i + n)) := by
  induction n generalizing l with
  | zero =>
    simp [popAtN, List.take_append_drop]
  | succ n ih =>
    unfold popAtN
    have hi : i < l.length := by omega
    rw [popAt_in_range l i hi]
    have hlen : i + n ≤ (l.eraseIdx i).length := by
      rw [List.length_eraseIdx, if_pos hi]
      omega
    show popAtN (l.eraseIdx i) i n = some (l.take i ++ l.drop (i + (n + 1)))
    rw [ih (l.eraseIdx i) hlen]
    rw [List.eraseIdx_eq_take_drop_succ]
    have h1 : (l.take i).length = i := by
      rw [List.length_take]
      omega
    rw [List.take_left' h1]
    have h2 : i + n = (l.take i).length + n := by omega
    rw [h2, List.drop_append, List.drop_drop]
    have h3 : i + 1 + n = i + (n + 1) := by omega
    rw [h3]

theorem drop_len_append (pre l2 : List String) :
    List.drop pre.length (pre ++ l2) = l2 := by
  have h := @List.drop_append String pre l2 0
  simpa using h

theorem insertIdx_decomp (l : List String) (n : Nat) (a : String) (h : n ≤ l.length) :
    l.insertIdx n a = l.take n ++ a :: l.drop n := by
  induction l generalizing n with
  | nil =>
    have : n = 0 := by simpa using h
    subst this
    rfl
  | cons x xs ih =>
    cases n with
    | zero => simp [List.insertIdx_zero]
    | succ n =>
      rw [List.insertIdx_succ_cons, ih n (by simpa using h)]
      rfl

theorem insertSeq_single_at_len (pre suf : List String) (x : String) :
    insertSeq (pre ++ suf) pre.length [x] = pre ++ [x] ++ suf := by
  show insertSeq (pyInsertIdx (pre ++ suf) pre.length x) (pre.length + 1) [] =
    pre ++ [x] ++ suf
  unfold insertSeq pyInsertIdx
  have h : pre.length ≤ (pre ++ suf).length := by
    rw [List.length_append]
    omega
  rw [if_pos h, insertIdx_decomp _ _ _ h, List.take_left' rfl, drop_len_append]
  simp

/-- C6: applying a single-line fix with empty `after_code` at a valid
1-based line `k` removes exactly line `k`: the result is the original
list of lines with index `k - 1` erased, every earlier line unchanged,
every later line shifted up by one, and the count one smaller. -/
theorem apply_fix_single_line_removal (code : String) (fix : FixSuggestion) (k : Nat)
    (hk1 : 1 ≤ k) (hk2 : k ≤ (splitLines code).length)
    (hs : fix.line_start = k) (he : fix.line_end = k) (ha : fix.after_code = "") :
    apply_fix code fix =
      some (joinLines ((splitLines code).take (k - 1) ++ (splitLines code).drop k)) ∧
    ((splitLines code).take (k - 1) ++ (splitLines code).drop k).length =
      (splitLines code).length - 1 ∧
    (∀ j, j < k - 1 →
      ((splitLines code).take (k - 1) ++ (splitLines code).drop k)[j]? =
        (splitLines code)[j]?) ∧
    (∀ j, k - 1 ≤ j →
      ((splitLines code).take (k - 1) ++ (splitLines code).drop k)[j]? =
        (splitLines code)[j + 1]?) := by
  have hlen : k - 1 < (splitLines code).length := by omega
  have htklen : ((splitLines code).take (k - 1)).length = k - 1 := by
    rw [List.length_take]
    omega
  refine ⟨?_, ?_, ?_, ?_⟩
  · unfold apply_fix
    rw [hs, he, if_pos rfl, ha, if_pos rfl]
    rw [popAt_in_range _ _ hlen]
    rw [List.eraseIdx_eq_take_drop_succ]
    have hk : k - 1 + 1 = k := by omega
    rw [hk]
    rfl
  · rw [List.length_append, htklen, List.length_drop]
    omega
  · intro j hj
    rw [List.getElem?_append]
    rw [htklen, if_pos hj, List.getElem?_take, if_pos hj]
  · intro j hj
    rw [List.getElem?_append, htklen, if_neg (by omega), List.getElem?_drop]
    congr 1
    omega

/-- C6 witness: deleting line 2 of `"a\nb\nc"`. -/
theorem apply_fix_single_line_removal_witness :
    apply_fix "a\nb\nc"
      { fix_id := "fix_1", fix_type := FixType.simple, title := "t", description := "d",
        line_start := 2, line_end := 2, before_code := "b", after_code := "",
        diff := "- b", confidence := 0.9, auto_applicable := true } =
      some (joinLines ((splitLines "a\nb\nc").take 1 ++ (splitLines "a\nb\nc").drop 2)) :=
  (apply_fix_single_line_removal "a\nb\nc" _ 2 (by omega) (by decide) rfl rfl rfl).1

/-- C10: a multi-line fix with empty `after_code` is not a pure
deletion: `apply_fix` removes the inclusive range and then splices in
`"".split('\n') = [""]`, one empty line, at that position; the line
count therefore drops by the range length minus one, not by the full
range length. -/
theorem apply_fix_multiline_empty_after (code : String) (fix : FixSuggestion) (a b : Nat)
    (hs : fix.line_start = a) (he : fix.line_end = b) (hab : a < b)
    (ha1 : 1 ≤ a) (hb : b ≤ (splitLines code).length) (haft : fix.after_code = "") :
    apply_fix code fix =
      some (joinLines
        ((splitLines code).take (a - 1) ++ [""] ++ (splitLines code).drop b)) ∧
    ((splitLines code).take (a - 1) ++ [""] ++ (splitLines code).drop b).length =
      (splitLines code).length - (b - a + 1) + 1 := by
  have hrange : (a - 1) + (b - a + 1) = b := by omega
  have htklen : ((splitLines code).take (a - 1)).length = a - 1 := by
    rw [List.length_take]
    omega
  constructor
  · unfold apply_fix
    rw [hs, he, if_neg (by omega), haft]
    rw [show popAtN (splitLines code) (a - 1) (b - a + 1) =
          some ((splitLines code).take (a - 1) ++ (splitLines code).drop b) from by
        rw [popAtN_eq _ _ _ (by omega), hrange]]
    show some (joinLines
        (insertSeq ((splitLines code).take (a - 1) ++ (splitLines code).drop b)
          (a - 1) (splitLines ""))) = _
    rw [show splitLines "" = [""] from rfl]
    generalize hpre : List.take (a - 1) (splitLines code) = pre at htklen ⊢
    rw [← htklen, insertSeq_single_at_len]
  · rw [List.length_append, List.length_append, htklen, List.length_drop]
    simp only [List.length_singleton]
    omega

/-- C10 witness: a 2-line empty-replacement fix on `"a\nb\nc\nd"`
leaves an empty line in place of the range. -/
theorem apply_fix_multiline_empty_after_witness :
    apply_fix "a\nb\nc\nd"
      { fix_id := "fix_2", fix_type := FixType.simple, title := "t", description := "d",
        line_start := 2, line_end := 3, before_code := "b\nc", after_code := "",
        diff := "- b\nc", confidence := 0.9, auto_applicable := true } =
      some (joinLines
        ((splitLines "a\nb\nc\nd").take 1 ++ [""] ++ (splitLines "a\nb\nc\nd").drop 3)) :=
  (apply_fix_multiline_empty_after "a\nb\nc\nd" _ 2 3 rfl rfl (by omega) (by omega)
    (by decide) rfl).1

theorem mem_bugsForLine_line (lang : String) (p : Nat × String) (b : BugPrediction)
    (hb : b ∈ bugsForLine lang p) : b.line_number = p.1 ∧ b.confidence = 0.8 := by
  unfold bugsForLine at hb
  rcases List.mem_filterMap.1 hb with ⟨pat, _, hpat⟩
  by_cases hf : pat.fires p.2
  · rw [if_pos hf] at hpat
    cases hpat
    exact ⟨rfl, rfl⟩
  · rw [if_neg hf] at hpat
    exact absurd hpat (by simp)

theorem bugs_line_ge (m : Nat) (tl : List String) (lang : String) :
    ∀ b ∈ (List.enumFrom m tl).flatMap (bugsForLine lang), m ≤ b.line_number := by
  intro b hb
  rcases List.mem_flatMap.1 hb with ⟨p, hp, hbp⟩
  rcases p with ⟨j, l⟩
  have hm := List.mem_enumFrom hp
  have hline := (mem_bugsForLine_line lang (j, l) b hbp).1
  omega

theorem bugsForLine_python_fired_filter (k : Nat) (line : String)
    (hf : searchEqNoneML line = true) :
    (bugsForLine "python" (k, line)).filter
        (fun b => b.line_number == k && b.bug_type == "comparison_error") =
      [{ line_number := k, severity := "medium", bug_type := "comparison_error",
         description := "Use \"is None\" instead of \"== None\"",
         confidence := 0.8,
         suggestion := some "Replace \"== None\" with \"is None\"" }] := by
  by_cases hbe : searchBareExcept line
  · simp [bugsForLine, bug_patterns, hf, hbe, List.filterMap_cons, List.filter]
  · simp [bugsForLine, bug_patterns, hf, hbe, List.filterMap_cons, List.filter]

theorem bugs_filter_single (ls : List String) (k i : Nat) (line : String)
    (hget : ls[i]? = some line) (hf : searchEqNoneML line = true) :
    ((List.enumFrom k ls).flatMap (bugsForLine "python")).filter
        (fun b => b.line_number == k + i && b.bug_type == "comparison_error") =
      [{ line_number := k + i, severity := "medium", bug_type := "comparison_error",
         description := "Use \"is None\" instead of \"== None\"",
         confidence := 0.8,
         suggestion := some "Replace \"== None\" with \"is None\"" }] := by
  induction ls generalizing k i with
  | nil => simp at hget
  | cons l tl ih =>
    rw [List.enumFrom_cons, List.flatMap_cons, List.filter_append]
    cases i with
    | zero =>
      have hl : l = line := by simpa using hget
      subst hl
      have h2 : ((List.enumFrom (k + 1) tl).flatMap (bugsForLine "python")).filter
          (fun b => b.line_number == k + 0 && b.bug_type == "comparison_error") = [] := by
        rw [List.filter_eq_nil]
        intro b hb
        have := bugs_line_ge (k + 1) tl "python" b hb
        simp only [Bool.and_eq_true, beq_iff_eq]
        intro hcontra
        omega
      rw [h2]
      have h1 := bugsForLine_python_fired_filter k l hf
      simp only [Nat.add_zero]
      rw [h1]
      simp
    | succ i2 =>
      have h1 : (bugsForLine "python" (k, l)).filter
          (fun b => b.line_number == k + (i2 + 1) && b.bug_type == "comparison_error") = [] := by
        rw [List.filter_eq_nil]
        intro b hb
        have := (mem_bugsForLine_line "python" (k, l) b hb).1
        simp only [Bool.and_eq_true, beq_iff_eq]
        intro hcontra
        omega
      rw [h1, List.nil_append]
      have hget2 : tl[i2]? = some line := by simpa using hget
      have := ih (k + 1) i2 hget2
      rw [show k + 1 + i2 = k + (i2 + 1) from by omega] at this
      exact this

/-- C3 counterexample: a line containing `None ==` (but not `== None`)
produces NO BugPrediction at all: the `ml_engine.py` pattern table only
compiles `==\s*None`, without the `None\s*==` alternative the claim
(and the auto-fixer) mention. -/
theorem none_eq_not_scanned_cex :
    predict_bugs "None == x" "python" = [] := by
  rfl

/-- C3 (amended): a line matching `== None` (regex `==\s*None`) yields
exactly one comparison-error BugPrediction for that line, with severity
medium, confidence exactly 0.8 and the `is None` suggestion; `None ==`
alone is not matched by this scanner; and every pattern-based finding
it produces, for any language, has confidence exactly 0.8. -/
theorem eq_none_bug_scanner (code : String) (i : Nat) (line : String)
    (hline : (splitLines code)[i]? = some line)
    (hfires : searchEqNoneML line = true) :
    ((predict_bugs code "python").filter
        (fun b => b.line_number == i + 1 && b.bug_type == "comparison_error")) =
      [{ line_number := i + 1, severity := "medium", bug_type := "comparison_error",
         description := "Use \"is None\" instead of \"== None\"",
         confidence := 0.8,
         suggestion := some "Replace \"== None\" with \"is None\"" }] ∧
    (∀ lang : String, ∀ b ∈ predict_bugs code lang, b.confidence = 0.8) := by
  constructor
  · unfold predict_bugs
    have := bugs_filter_single (splitLines code) 1 i line hline hfires
    rw [show (1 : Nat) + i = i + 1 from by omega] at this
    exact this
  · intro lang b hb
    unfold predict_bugs at hb
    rcases List.mem_flatMap.1 hb with ⟨p, _, hbp⟩
    exact (mem_bugsForLine_line lang p b hbp).2

/-- C3 witness: the one-line input `"a == None"`. -/
theorem eq_none_bug_scanner_witness :
    ((predict_bugs "a == None" "python").filter
        (fun b => b.line_number == 1 && b.bug_type == "comparison_error")) =
      [{ line_number := 1, severity := "medium", bug_type := "comparison_error",
         description := "Use \"is None\" instead of \"== None\"",
         confidence := 0.8,
         suggestion := some "Replace \"== None\" with \"is None\"" }] :=
  (eq_none_bug_scanner "a == None" 0 "a == None" rfl rfl).1

theorem chainFold_mem_emit {α : Type} (f : α → Nat → Option FixSuggestion × Nat)
    (l : List α) (a : α) (ha : a ∈ l) (c : Nat) (P : FixSuggestion → Prop)
    (hemit : ∀ c2, ∃ fx, (f a c2).1 = some fx ∧ P fx) :
    ∃ fx ∈ (chainFold f l c).1, P fx := by
  induction l generalizing c with
  | nil => simp at ha
  | cons x xs ih =>
    by_cases hx : a = x
    · subst hx
      rcases hemit c with ⟨fx, hfx, hP⟩
      refine ⟨fx, ?_, hP⟩
      show fx ∈ (f a c).1.toList ++ (chainFold f xs (f a c).2).1
      rw [hfx]
      exact List.mem_cons_self fx _
    · have hmem : a ∈ xs := by
        rcases List.mem_cons.1 ha with h | h
        · exact absurd h hx
        · exact h
      rcases ih hmem ((f x c).2) with ⟨fx, hm, hP⟩
      refine ⟨fx, ?_, hP⟩
      show fx ∈ (f x c).1.toList ++ (chainFold f xs (f x c).2).1
      exact List.mem_append_right _ hm

theorem analyze_python_mem_of_listcomp (astO : Option PyAst) (code : String) (c : Nat)
    (P : FixSuggestion → Prop)
    (h : ∀ c2, ∃ f ∈ (suggest_list_comprehension (splitLines code) c2).1, P f) :
    ∃ f ∈ (analyze_python astO code c).1, P f := by
  obtain ⟨f, hm, hP⟩ := h ((fix_bare_except (splitLines code)
    ((fix_none_comparison (splitLines code)
      ((fix_missing_docstrings astO (splitLines code)
        ((fix_trailing_whitespace (splitLines code)
          ((fix_unused_imports astO (splitLines code) c).2)).2)).2)).2)).2)
  exact ⟨f, List.mem_append_right _ hm, hP⟩

/-- C4 counterexample: when the `for`/`.append` pair occupies the last
two lines of the input, NO fix is emitted at all (and the counter is
not even bumped): the loop runs over `range(len(lines) - 2)`, which
excludes the index of the second-to-last line.  The AST oracle is the
true parse of this input (no imports, no defs). -/
theorem list_comp_last_lines_cex :
    analyze_code "for x in y:\n    result.append(x)" "python"
      (some { imports := [], defs := [] }) 0 = ([], 0) := by
  rfl

/-- C4 (amended): the list-comprehension suggestion fires only when at
least one line follows the append line (0-based pair index
`i < len - 2`); in that case fix generation emits a performance
FixSuggestion covering 1-based lines `i+1 .. i+2` with confidence 0.7,
not auto-applicable, whose replacement is rebuilt from the captured
groups.  For a pair on the last two lines nothing is emitted (see the
counterexample). -/
theorem list_comp_adjacent_pair (code : String) (astO : Option PyAst) (c : Nat) (i : Nat)
    (hi : i < (splitLines code).length - 2)
    (hfor : hasSub ((splitLines code).getD i "") "for " = true)
    (hin : hasSub ((splitLines code).getD i "") " in " = true)
    (happ : hasSub ((splitLines code).getD (i + 1) "") ".append(" = true)
    (v it e : String)
    (hmatch : findForIn ((splitLines code).getD i "").data = some (v, it))
    (hexpr : findAppend ((splitLines code).getD (i + 1) "").data = some e) :
    ∃ f ∈ (analyze_code code "python" astO c).1,
      f.line_start = i + 1 ∧ f.line_end = i + 2 ∧ f.confidence = 0.7 ∧
      f.auto_applicable = false ∧ f.fix_type = FixType.performance ∧
      f.after_code = "    result = [" ++ e ++ " for " ++ v ++ " in " ++ it ++ "]" := by
  have hemit : ∀ c2, ∃ fx, (listCompStep (splitLines code) i c2).1 = some fx ∧
      (fx.line_start = i + 1 ∧ fx.line_end = i + 2 ∧ fx.confidence = 0.7 ∧
       fx.auto_applicable = false ∧ fx.fix_type = FixType.performance ∧
       fx.after_code = "    result = [" ++ e ++ " for " ++ v ++ " in " ++ it ++ "]") := by
    intro c2
    unfold listCompStep
    simp only [hfor, hin, happ, Bool.and_self, if_true, hmatch, hexpr]
    exact ⟨_, rfl, rfl, rfl, rfl, rfl, rfl, rfl⟩
  have hstep : ∀ c2 : Nat, ∃ f ∈ (suggest_list_comprehension (splitLines code) c2).1,
      f.line_start = i + 1 ∧ f.line_end = i + 2 ∧ f.confidence = 0.7 ∧
      f.auto_applicable = false ∧ f.fix_type = FixType.performance ∧
      f.after_code = "    result = [" ++ e ++ " for " ++ v ++ " in " ++ it ++ "]" :=
    fun c2 => chainFold_mem_emit (listCompStep (splitLines code))
      (List.range ((splitLines code).length - 2)) i (List.mem_range.2 hi) c2 _ hemit
  exact analyze_python_mem_of_listcomp astO code c _ hstep

/-- C4 witness for the amended theorem: a three-line input whose
for/append pair sits on lines 1-2. -/
theorem list_comp_adjacent_pair_witness :
    ∃ f ∈ (analyze_code "for x in y:\n    result.append(x)\npass" "python"
        (some { imports := [], defs := [] }) 0).1,
      f.line_start = 1 ∧ f.line_end = 2 ∧ f.confidence = 0.7 ∧
      f.auto_applicable = false ∧ f.fix_type = FixType.performance ∧
      f.after_code = "    result = [" ++ "x" ++ " for " ++ "x" ++ " in " ++ "y" ++ "]" :=
  list_comp_adjacent_pair "for x in y:\n    result.append(x)\npass"
    (some { imports := [], defs := [] }) 0 0 (by decide) (by decide) (by decide)
    (by decide) "x" "y" "x" (by decide) (by decide)

theorem joinNl_splitNl (s : List Char) : joinNl (splitNl s) = s := by
  induction s with
  | nil => rfl
  | cons c rest ih =>
    simp only [splitNl]
    by_cases hc : c = '\n'
    · subst hc
      simp only [if_pos rfl]
      cases hr : splitNl rest with
      | nil => exact absurd hr (splitNl_ne_nil rest)
      | cons q qs =>
        rw [hr] at ih
        show ([] : List Char) ++ '\n' :: joinNl (q :: qs) = '\n' :: rest
        rw [List.nil_append, ← ih]
    · simp only [hc, if_false]
      cases hr : splitNl rest with
      | nil => exact absurd hr (splitNl_ne_nil rest)
      | cons p ps =>
        rw [hr] at ih
        cases ps with
        | nil =>
          show c :: p = c :: rest
          rw [show joinNl [p] = p from rfl] at ih
          rw [ih]
        | cons q qs =>
          show (c :: p) ++ '\n' :: joinNl (q :: qs) = c :: rest
          rw [List.cons_append, ← ih]
          rfl

theorem joinLines_splitLines (s : String) : joinLines (splitLines s) = s := by
  unfold joinLines splitLines
  rw [List.map_map]
  have hcomp : (String.data ∘ List.asString) = id := funext fun l => rfl
  rw [hcomp, List.map_id, joinNl_splitNl]

theorem splitLines_ne_nil (s : String) : splitLines s ≠ [] := by
  unfold splitLines
  intro h
  exact splitNl_ne_nil s.data (by simpa using h)

theorem chainFold_cons {α : Type} (f : α → Nat → Option FixSuggestion × Nat)
    (x : α) (xs : List α) (c : Nat) :
    chainFold f (x :: xs) c =
      ((f x c).1.toList ++ (chainFold f xs (f x c).2).1,
       (chainFold f xs (f x c).2).2) := rfl

theorem chainFold_none {α : Type} (f : α → Nat → Option FixSuggestion × Nat)
    (l : List α) (c : Nat) (h : ∀ a ∈ l, ∀ c2, f a c2 = (none, c2)) :
    chainFold f l c = ([], c) := by
  induction l generalizing c with
  | nil => rfl
  | cons x xs ih =>
    rw [chainFold_cons, h x (List.mem_cons_self x xs) c]
    simp only [Option.toList_none, List.nil_append]
    rw [ih c (fun a ha c2 => h a (List.mem_cons_of_mem x ha) c2)]

theorem chainFold_forall {α : Type} (f : α → Nat → Option FixSuggestion × Nat)
    (l : List α) (c : Nat) (P : FixSuggestion → Prop)
    (h : ∀ a ∈ l, ∀ c2 fx, (f a c2).1 = some fx → P fx) :
    ∀ fx ∈ (chainFold f l c).1, P fx := by
  induction l generalizing c with
  | nil => simp [chainFold]
  | cons x xs ih =>
    intro fx hfx
    rw [chainFold_cons] at hfx
    rcases List.mem_append.1 hfx with hm | hm
    · cases hopt : (f x c).1 with
      | none => rw [hopt] at hm; simp at hm
      | some g =>
        rw [hopt] at hm
        simp only [Option.toList_some, List.mem_singleton] at hm
        subst hm
        exact h x (List.mem_cons_self x xs) c fx hopt
    · exact ih ((f x c).2) (fun a ha => h a (List.mem_cons_of_mem x ha)) fx hm

theorem enumFrom_snd_mem {α : Type} (n : Nat) (l : List α) (p : Nat × α)
    (hp : p ∈ List.enumFrom n l) : p.2 ∈ l := by
  induction l generalizing n with
  | nil => simp [List.enumFrom] at hp
  | cons x xs ih =>
    rw [List.enumFrom_cons, List.mem_cons] at hp
    rcases hp with h | h
    · subst h; exact List.mem_cons_self x xs
    · exact List.mem_cons_of_mem x (ih (n + 1) h)

theorem trailStep_none (p : Nat × String) (c : Nat) (h : pyRstrip p.2 = p.2) :
    trailStep p c = (none, c) := by
  unfold trailStep
  rw [if_neg (fun hcon => hcon h.symm)]

theorem trailStep_not_flagged (p : Nat × String) (c : Nat) (h : ¬ p.2 ≠ pyRstrip p.2) :
    trailStep p c = (none, c) := by
  unfold trailStep
  rw [if_neg h]

theorem fix_trailing_whitespace_rstripped (lines : List String) (c : Nat)
    (h : ∀ l ∈ lines, pyRstrip l = l) :
    fix_trailing_whitespace lines c = ([], c) := by
  unfold fix_trailing_whitespace
  apply chainFold_none
  intro a ha c2
  exact trailStep_none a c2 (h a.2 (enumFrom_snd_mem 1 lines a ha))

theorem set_at_len (pre tl : List String) (l v : String) :
    (pre ++ l :: tl).set pre.length v = pre ++ v :: tl := by
  induction pre with
  | nil => rfl
  | cons x xs ih => simp [List.set, ih]

theorem applyAllFixes_nil (code : String) : applyAllFixes code [] = some code := rfl

theorem applyAllFixes_cons (code : String) (f : FixSuggestion) (fs : List FixSuggestion) :
    applyAllFixes code (f :: fs) =
      (apply_fix code f).bind (fun code2 => applyAllFixes code2 fs) := rfl

theorem apply_trailing_aux (ls : List String) (pre : List String) (c : Nat)
    (hpre : ∀ l ∈ pre, '\n' ∉ l.data)
    (hls : ∀ l ∈ ls, '\n' ∉ l.data)
    (H : ∀ l ∈ ls, pyRstrip l ≠ l → pyRstrip l ≠ "") :
    applyAllFixes (joinLines (pre ++ ls))
        (chainFold trailStep (List.enumFrom (pre.length + 1) ls) c).1 =
      some (joinLines (pre ++ ls.map pyRstrip)) := by
  induction ls generalizing pre c with
  | nil => simp [List.enumFrom, chainFold, applyAllFixes_nil]
  | cons l tl ih =>
    have hlnl : '\n' ∉ l.data := hls l (List.mem_cons_self l tl)
    have htlnl : ∀ x ∈ tl, '\n' ∉ x.data := fun x hx => hls x (List.mem_cons_of_mem l hx)
    have hsplit : splitLines (joinLines (pre ++ l :: tl)) = pre ++ l :: tl := by
      apply splitLines_joinLines
      · simp
      · intro x hx
        rcases List.mem_append.1 hx with hx1 | hx1
        · exact hpre x hx1
        · rcases List.mem_cons.1 hx1 with hx2 | hx2
          · subst hx2; exact hlnl
          · exact htlnl x hx2
    rw [List.enumFrom_cons, chainFold_cons]
    by_cases hflag : l ≠ pyRstrip l
    · -- flagged line: the step emits a replacement fix
      have hne : pyRstrip l ≠ "" :=
        H l (List.mem_cons_self l tl) (fun hr => hflag hr.symm)
      rw [show trailStep (pre.length + 1, l) c =
            (some {
              fix_id := mkFixId (c + 1)
              fix_type := FixType.style
              title := "Remove trailing whitespace on line " ++ Nat.repr (pre.length + 1)
              description := "Trailing whitespace should be removed"
              line_start := pre.length + 1
              line_end := pre.length + 1
              before_code := l
              after_code := pyRstrip l
              diff := generate_diff l (pyRstrip l) (pre.length + 1)
              confidence := 1
              auto_applicable := true }, c + 1) from by
          unfold trailStep
          rw [if_pos hflag]]
      simp only [Option.toList_some, List.cons_append, List.nil_append]
      rw [applyAllFixes_cons]
      rw [show apply_fix (joinLines (pre ++ l :: tl))
            { fix_id := mkFixId (c + 1)
              fix_type := FixType.style
              title := "Remove trailing whitespace on line " ++ Nat.repr (pre.length + 1)
              description := "Trailing whitespace should be removed"
              line_start := pre.length + 1
              line_end := pre.length + 1
              before_code := l
              after_code := pyRstrip l
              diff := generate_diff l (pyRstrip l) (pre.length + 1)
              confidence := 1
              auto_applicable := true } =
          some (joinLines (pre ++ pyRstrip l :: tl)) from by
        unfold apply_fix
        rw [hsplit, if_pos rfl, if_neg hne]
        have hidx : pre.length + 1 - 1 < (pre ++ l :: tl).length := by
          rw [List.length_append, List.length_cons]
          omega
        rw [if_pos hidx]
        have hset : (pre ++ l :: tl).set (pre.length + 1 - 1) (pyRstrip l) =
            pre ++ pyRstrip l :: tl := by
          rw [show pre.length + 1 - 1 = pre.length from by omega]
          exact set_at_len pre tl l (pyRstrip l)
        rw [hset]]
      rw [Option.some_bind]
      have hpre2 : ∀ x ∈ pre ++ [pyRstrip l], '\n' ∉ x.data := by
        intro x hx
        rcases List.mem_append.1 hx with hx1 | hx1
        · exact hpre x hx1
        · rw [List.mem_singleton] at hx1
          subst hx1
          exact pyRstrip_no_new_char l '\n' hlnl
      have := ih (pre ++ [pyRstrip l]) (c + 1) hpre2 htlnl
        (fun x hx hne2 => H x (List.mem_cons_of_mem l hx) hne2)
      rw [List.length_append, List.length_singleton] at this
      rw [show pre ++ [pyRstrip l] ++ tl = pre ++ pyRstrip l :: tl from by simp] at this
      rw [show pre ++ [pyRstrip l] ++ tl.map pyRstrip = pre ++ pyRstrip l :: tl.map pyRstrip
          from by simp] at this
      rw [show pre.length + 1 + 1 = pre.length + 1 + 1 from rfl] at this
      rw [List.map_cons]
      exact this
    · -- unflagged line: no emission, the line is already its own rstrip
      rw [trailStep_not_flagged (pre.length + 1, l) c hflag]
      simp only [Option.toList_none, List.nil_append]
      have heq : pyRstrip l = l := by
        by_contra hcon
        exact hflag (fun h2 => hcon h2.symm)
      have hpre2 : ∀ x ∈ pre ++ [l], '\n' ∉ x.data := by
        intro x hx
        rcases List.mem_append.1 hx with hx1 | hx1
        · exact hpre x hx1
        · rw [List.mem_singleton] at hx1
          subst hx1
          exact hlnl
      have := ih (pre ++ [l]) c hpre2 htlnl
        (fun x hx hne2 => H x (List.mem_cons_of_mem l hx) hne2)
      rw [List.length_append, List.length_singleton] at this
      rw [show pre ++ [l] ++ tl = pre ++ l :: tl from by simp] at this
      rw [show pre ++ [l] ++ tl.map pyRstrip = pre ++ l :: tl.map pyRstrip
          from by simp] at this
      rw [List.map_cons, heq]
      exact this

/-- C7 counterexample: on `"  \na \nx"` the whitespace-only first line
generates a fix with empty `after_code`, which `apply_fix` interprets
as LINE DELETION; subsequent fixes then hit shifted lines, and the
result `"a \na"` still carries trailing whitespace, so the detector
fires again: the pass is not idempotent in general. -/
theorem trailing_ws_not_idempotent_cex :
    applyAllFixes "  \na \nx" (fix_trailing_whitespace (splitLines "  \na \nx") 0).1 =
      some "a \na" ∧
    (fix_trailing_whitespace (splitLines "a \na") 0).1 ≠ [] := by
  constructor
  · rfl
  · intro h
    have : ((fix_trailing_whitespace (splitLines "a \na") 0).1).length = 0 := by
      rw [h]; rfl
    exact absurd this (by decide)

/-- C7 (amended): provided no flagged line right-trims to the empty
string (no whitespace-only lines), applying all generated
trailing-whitespace fixes once right-trims every line, the detector
finds nothing further on the result (so a second pass is the
identity), and every generated fix has confidence 1.0, is
auto-applicable, and has the right-trimmed line as `after_code`. -/
theorem trailing_ws_idempotent (code : String) (c c2 c3 : Nat)
    (H : ∀ l ∈ splitLines code, pyRstrip l ≠ l → pyRstrip l ≠ "") :
    applyAllFixes code (fix_trailing_whitespace (splitLines code) c).1 =
      some (joinLines ((splitLines code).map pyRstrip)) ∧
    (fix_trailing_whitespace
      (splitLines (joinLines ((splitLines code).map pyRstrip))) c2).1 = [] ∧
    (∀ f ∈ (fix_trailing_whitespace (splitLines code) c3).1,
      f.confidence = 1 ∧ f.auto_applicable = true ∧
      f.after_code = pyRstrip f.before_code) := by
  have hrt : splitLines (joinLines ((splitLines code).map pyRstrip)) =
      (splitLines code).map pyRstrip := by
    apply splitLines_joinLines
    · simp [splitLines_ne_nil code]
    · intro l hl
      rcases List.mem_map.1 hl with ⟨x, hx, rfl⟩
      exact pyRstrip_no_new_char x '\n' (mem_splitLines_no_nl code x hx)
  refine ⟨?_, ?_, ?_⟩
  · have := apply_trailing_aux (splitLines code) [] c (by simp)
      (mem_splitLines_no_nl code) H
    simp only [List.nil_append, List.length_nil] at this
    rw [joinLines_splitLines] at this
    exact this
  · rw [hrt]
    rw [fix_trailing_whitespace_rstripped _ c2 ?_]
    intro l hl
    rcases List.mem_map.1 hl with ⟨x, _, rfl⟩
    exact pyRstrip_idem x
  · unfold fix_trailing_whitespace
    apply chainFold_forall
    intro a _ cc fx hfx
    unfold trailStep at hfx
    by_cases hflag : a.2 ≠ pyRstrip a.2
    · rw [if_pos hflag] at hfx
      cases hfx
      exact ⟨rfl, rfl, rfl⟩
    · rw [if_neg hflag] at hfx
      exact absurd hfx (by simp)

/-- C7 witness for the amended theorem: `"a \nb"` has a flagged line
whose trim is non-empty, and one application fully cleans it. -/
theorem trailing_ws_idempotent_witness :
    applyAllFixes "a \nb" (fix_trailing_whitespace (splitLines "a \nb") 0).1 =
      some (joinLines ((splitLines "a \nb").map pyRstrip)) ∧
    (fix_trailing_whitespace
      (splitLines (joinLines ((splitLines "a \nb").map pyRstrip))) 0).1 = [] :=
  ⟨(trailing_ws_idempotent "a \nb" 0 0 0 (by decide)).1,
   (trailing_ws_idempotent "a \nb" 0 0 0 (by decide)).2.1⟩

theorem find?_of_filter_nil {α : Type} (p : α → Bool) (l : List α)
    (h : l.filter p = []) : l.find? p = none := by
  rw [List.find?_eq_none]
  intro x hx
  exact List.filter_eq_nil.1 h x hx

theorem find?_of_filter_singleton {α : Type} (p : α → Bool) (l : List α) (r : α)
    (h : l.filter p = [r]) : l.find? p = some r := by
  induction l with
  | nil => simp at h
  | cons x xs ih =>
    by_cases hp : p x
    · rw [List.filter_cons_of_pos hp] at h
      rw [List.find?_cons_of_pos xs hp]
      simp only [List.cons.injEq] at h
      rw [h.1]
    · rw [List.filter_cons_of_neg hp] at h
      rw [List.find?_cons_of_neg xs hp]
      exact ih h

theorem filter_updateFirst_disjoint {α : Type} (p q : α → Bool) (f : α → α) (l : List α)
    (hq : ∀ r, p r = true → q r = false ∧ q (f r) = false) :
    (updateFirst p f l).filter q = l.filter q := by
  induction l with
  | nil => rfl
  | cons x xs ih =>
    unfold updateFirst
    by_cases hp : p x
    · rw [if_pos hp]
      rw [List.filter_cons_of_neg (by rw [(hq x hp).2]; simp)]
      rw [List.filter_cons_of_neg (by rw [(hq x hp).1]; simp)]
    · rw [if_neg hp]
      by_cases hx : q x
      · rw [List.filter_cons_of_pos hx, List.filter_cons_of_pos hx, ih]
      · rw [List.filter_cons_of_neg (by simp [hx]), List.filter_cons_of_neg (by simp [hx]), ih]

theorem filter_updateFirst_self {α : Type} (q : α → Bool) (f : α → α) (l : List α) (r : α)
    (h : l.filter q = [r]) (hf : q (f r) = true) :
    (updateFirst q f l).filter q = [f r] := by
  induction l with
  | nil => simp at h
  | cons x xs ih =>
    unfold updateFirst
    by_cases hp : q x
    · rw [List.filter_cons_of_pos hp] at h
      simp only [List.cons.injEq] at h
      rw [if_pos hp]
      have hx : x = r := h.1
      subst hx
      rw [List.filter_cons_of_pos hf, h.2]
    · rw [List.filter_cons_of_neg hp] at h
      rw [if_neg hp, List.filter_cons_of_neg hp]
      exact ih h

theorem profile_step_absent (u : Nat) (db : List StylePatternRow) (pt val : String)
    (h : db.filter (fun r => rowMatches u pt r) = []) :
    (profile_step u db pt val).filter (fun r => rowMatches u pt r) =
      [{ user_id := u, pattern_type := pt, pattern_value := val,
         frequency := 1, confidence := 0.1 }] := by
  unfold profile_step
  rw [find?_of_filter_nil _ _ h]
  show ((db ++ [_]).filter _) = _
  rw [List.filter_append, h, List.nil_append]
  simp [rowMatches]

theorem profile_step_present (u : Nat) (db : List StylePatternRow) (pt val : String)
    (r0 : StylePatternRow) (h : db.filter (fun r => rowMatches u pt r) = [r0]) :
    (profile_step u db pt val).filter (fun r => rowMatches u pt r) =
      [{ r0 with frequency := r0.frequency + 1,
                 confidence := min 1 (((r0.frequency + 1 : ℕ) : ℚ) / 10) }] := by
  unfold profile_step
  rw [find?_of_filter_singleton _ _ _ h]
  have hr0 : rowMatches u pt r0 = true := by
    have hm : r0 ∈ db.filter (fun r => rowMatches u pt r) := by rw [h]; simp
    exact (List.mem_filter.1 hm).2
  exact filter_updateFirst_self (fun r => rowMatches u pt r)
    (fun r => { r with
                frequency := r.frequency + 1
                confidence := min 1 (((r.frequency + 1 : ℕ) : ℚ) / 10) })
    db r0 h (by simpa [rowMatches] using hr0)

theorem profile_step_frame (u : Nat) (db : List StylePatternRow) (pt pt2 val : String)
    (hne : pt2 ≠ pt) :
    (profile_step u db pt2 val).filter (fun r => rowMatches u pt r) =
      db.filter (fun r => rowMatches u pt r) := by
  unfold profile_step
  cases hfind : db.find? (fun r => rowMatches u pt2 r) with
  | some r1 =>
    apply filter_updateFirst_disjoint
    intro r hp
    simp only [rowMatches, Bool.and_eq_true, beq_iff_eq] at hp
    constructor
    · simp [rowMatches, hp.2, hne]
    · simp [rowMatches, hp.2, hne]
  | none =>
    show ((db ++ [_]).filter _) = _
    rw [List.filter_append]
    have hsing : ([({ user_id := u
                      pattern_type := pt2
                      pattern_value := val
                      frequency := 1
                      confidence := 0.1 } : StylePatternRow)].filter
        (fun r => rowMatches u pt r)) = [] := by
      simp [rowMatches, hne]
    rw [hsing, List.append_nil]

theorem find?_eq_head?_filter {α : Type} (p : α → Bool) (l : List α) :
    l.find? p = (l.filter p).head? := by
  induction l with
  | nil => rfl
  | cons x xs ih =>
    by_cases hp : p x
    · rw [List.find?_cons_of_pos xs hp, List.filter_cons_of_pos hp, List.head?_cons]
    · rw [List.find?_cons_of_neg xs hp, List.filter_cons_of_neg hp, ih]

theorem filter_updateFirst_general {α : Type} (q : α → Bool) (f : α → α) (l : List α)
    (hf : ∀ r, q r = true → q (f r) = true) :
    (updateFirst q f l).filter q =
      match l.filter q with
      | [] => []
      | r :: rest => f r :: rest := by
  induction l with
  | nil => rfl
  | cons x xs ih =>
    unfold updateFirst
    by_cases hp : q x
    · rw [if_pos hp, List.filter_cons_of_pos hp, List.filter_cons_of_pos (hf x hp)]
    · rw [if_neg hp, List.filter_cons_of_neg hp, List.filter_cons_of_neg hp, ih]

theorem profile_step_filter_congr (u : Nat) (db1 db2 : List StylePatternRow)
    (pt val : String)
    (h : db1.filter (fun r => rowMatches u pt r) = db2.filter (fun r => rowMatches u pt r)) :
    (profile_step u db1 pt val).filter (fun r => rowMatches u pt r) =
      (profile_step u db2 pt val).filter (fun r => rowMatches u pt r) := by
  unfold profile_step
  rw [find?_eq_head?_filter, find?_eq_head?_filter, h]
  have hpres : ∀ r : StylePatternRow, rowMatches u pt r = true →
      rowMatches u pt { r with
        frequency := r.frequency + 1
        confidence := min 1 (((r.frequency + 1 : ℕ) : ℚ) / 10) } = true := by
    intro r hr
    simpa [rowMatches] using hr
  cases hf : (db2.filter (fun r => rowMatches u pt r)) with
  | nil =>
    rw [hf] at h
    simp only [List.head?_nil]
    show ((db1 ++ [_]).filter _) = ((db2 ++ [_]).filter _)
    rw [List.filter_append, List.filter_append, h, hf]
  | cons r rest =>
    simp only [List.head?_cons]
    show (updateFirst _ _ db1).filter _ = (updateFirst _ _ db2).filter _
    rw [filter_updateFirst_general _ _ db1 hpres, filter_updateFirst_general _ _ db2 hpres]
    rw [h]

theorem fold_steps_frame (u : Nat) (L : List (String × String)) (db : List StylePatternRow)
    (pt : String) (hall : ∀ q ∈ L, q.1 ≠ pt) :
    ((L.foldl (fun d p => profile_step u d p.1 p.2) db).filter
        (fun r => rowMatches u pt r)) =
      db.filter (fun r => rowMatches u pt r) := by
  induction L generalizing db with
  | nil => rfl
  | cons q L2 ih =>
    rw [List.foldl_cons]
    rw [ih (profile_step u db q.1 q.2) (fun p hp => hall p (List.mem_cons_of_mem q hp))]
    exact profile_step_frame u db pt q.1 q.2 (hall q (List.mem_cons_self q L2))

theorem fold_steps_filter (u : Nat) (L : List (String × String)) (db : List StylePatternRow)
    (pt val : String) (hmem : (pt, val) ∈ L) (hnodup : (L.map Prod.fst).Nodup) :
    ((L.foldl (fun d p => profile_step u d p.1 p.2) db).filter
        (fun r => rowMatches u pt r)) =
      ((profile_step u db pt val).filter (fun r => rowMatches u pt r)) := by
  induction L generalizing db with
  | nil => simp at hmem
  | cons q L2 ih =>
    rw [List.map_cons, List.nodup_cons] at hnodup
    by_cases hq : q.1 = pt
    · have hqval : q = (pt, val) := by
        rcases List.mem_cons.1 hmem with h | h
        · exact h.symm
        · exfalso
          apply hnodup.1
          rw [hq]
          exact List.mem_map_of_mem Prod.fst h
      subst hqval
      rw [List.foldl_cons]
      exact fold_steps_frame u L2 (profile_step u db pt val) pt
        (fun p hp hcon => hnodup.1 (List.mem_map.2 ⟨p, hp, hcon⟩))
    · have hmem2 : (pt, val) ∈ L2 := by
        rcases List.mem_cons.1 hmem with h | h
        · exact absurd (congrArg Prod.fst h.symm) hq
        · exact h
      rw [List.foldl_cons]
      rw [ih (profile_step u db q.1 q.2) hmem2 hnodup.2]
      exact profile_step_filter_congr u (profile_step u db q.1 q.2) db pt val
        (profile_step_frame u db pt q.1 q.2 hq)

theorem pattern_data_keys_nodup (pats : StylePatterns) :
    ((pattern_data pats).map Prod.fst).Nodup := by
  show (["naming", "indentation", "quotes", "line_length", "comments", "imports"]
    : List String).Nodup
  decide

/-- C8: the profile merge.  (a) With no row for `(user, pt)` the merge
appends one with frequency 1, confidence 0.1; (b) with exactly one such
row it increments the frequency and recomputes
`confidence = min(1, frequency/10)`; (c) hence starting from a profile
with no row for `(user, pt)`, after `n ≥ 1` merges the row holds
frequency `n` and confidence `min(1, n/10)`, which is exactly 1 from
the 10th observation on. -/
theorem profile_merge (u : Nat) (pats : StylePatterns) (db : List StylePatternRow)
    (pt val : String) (hmem : (pt, val) ∈ pattern_data pats) :
    ((db.filter (fun r => rowMatches u pt r) = []) →
      (update_user_profile u pats db).filter (fun r => rowMatches u pt r) =
        [{ user_id := u, pattern_type := pt, pattern_value := val,
           frequency := 1, confidence := 0.1 }]) ∧
    (∀ r0 : StylePatternRow, db.filter (fun r => rowMatches u pt r) = [r0] →
      (update_user_profile u pats db).filter (fun r => rowMatches u pt r) =
        [{ r0 with frequency := r0.frequency + 1,
                   confidence := min 1 (((r0.frequency + 1 : ℕ) : ℚ) / 10) }]) ∧
    (∀ n : Nat, 1 ≤ n → db.filter (fun r => rowMatches u pt r) = [] →
      ∃ r : StylePatternRow,
        (((update_user_profile u pats)^[n]) db).filter (fun r2 => rowMatches u pt r2) = [r] ∧
        r.frequency = n ∧ r.confidence = min 1 ((n : ℚ) / 10) ∧
        (10 ≤ n → r.confidence = 1)) := by
  have hstep := fold_steps_filter u (pattern_data pats) db pt val hmem
    (pattern_data_keys_nodup pats)
  refine ⟨?_, ?_, ?_⟩
  · intro hnil
    show ((pattern_data pats).foldl (fun d p => profile_step u d p.1 p.2) db).filter _ = _
    rw [hstep, profile_step_absent u db pt val hnil]
  · intro r0 hone
    show ((pattern_data pats).foldl (fun d p => profile_step u d p.1 p.2) db).filter _ = _
    rw [hstep, profile_step_present u db pt val r0 hone]
  · intro n hn hnil
    induction n with
    | zero => omega
    | succ m ihm =>
      rcases Nat.eq_or_lt_of_le hn with h1 | h1
      · -- m + 1 = 1
        have hm0 : m = 0 := by omega
        subst hm0
        refine ⟨{ user_id := u, pattern_type := pt, pattern_value := val,
                  frequency := 1, confidence := 0.1 }, ?_, rfl, ?_, ?_⟩
        · rw [Function.iterate_one]
          show ((pattern_data pats).foldl (fun d p => profile_step u d p.1 p.2) db).filter _ = _
          rw [hstep, profile_step_absent u db pt val hnil]
        · norm_num
        · intro hcon
          omega
      · have hm1 : 1 ≤ m := by omega
        rcases ihm hm1 with ⟨r, hr, hfreq, hconf, _⟩
        refine ⟨{ r with
                  frequency := r.frequency + 1
                  confidence := min 1 (((r.frequency + 1 : ℕ) : ℚ) / 10) }, ?_, ?_, ?_, ?_⟩
        · rw [Function.iterate_succ_apply']
          have hstep2 := fold_steps_filter u (pattern_data pats)
            (((update_user_profile u pats)^[m]) db) pt val hmem (pattern_data_keys_nodup pats)
          show ((pattern_data pats).foldl (fun d p => profile_step u d p.1 p.2)
            (((update_user_profile u pats)^[m]) db)).filter _ = _
          rw [hstep2, profile_step_present u _ pt val r hr]
        · simp [hfreq]
        · simp [hfreq]
        · intro h10
          simp only [hfreq]
          rw [min_eq_left]
          rw [le_div_iff (by norm_num : (0 : ℚ) < 10), one_mul]
          push_cast
          exact_mod_cast (by omega : (10 : ℕ) ≤ m + 1)

/-- C8 witness: one user, empty profile, ten merges of the same
snapshot saturate the `naming` row at confidence 1. -/
theorem profile_merge_witness :
    ∃ r : StylePatternRow,
      (((update_user_profile 1
          { naming_convention := "snake_case", indentation := "spaces4",
            quote_style := "single", line_length := "80",
            comment_style := "above", import_style := "grouped" })^[10]) []).filter
          (fun r2 => rowMatches 1 "naming" r2) = [r] ∧
      r.frequency = 10 ∧ r.confidence = min 1 ((10 : ℚ) / 10) ∧
      (10 ≤ 10 → r.confidence = 1) :=
  (profile_merge 1
    { naming_convention := "snake_case", indentation := "spaces4",
      quote_style := "single", line_length := "80",
      comment_style := "above", import_style := "grouped" }
    [] "naming" "snake_case" (by simp [pattern_data])).2.2 10 (by omega) rfl

/-- Invariant tying a fix list to the counter interval that produced
it: the fix ids are decimal renderings of a strictly increasing run of
counter values inside `(c0, c1]`. -/
def IdsOK (c0 c1 : Nat) (fs : List FixSuggestion) : Prop :=
  c0 ≤ c1 ∧ ∃ ns : List Nat, fs.map (fun f => f.fix_id) = ns.map mkFixId ∧
    ns.Chain' (· < ·) ∧ ∀ n ∈ ns, c0 < n ∧ n ≤ c1

/-- A detector step is well-behaved: it never decreases the counter and
any fix it emits carries an id freshly minted inside the step's counter
interval. -/
def StepOK {α : Type} (f : α → Nat → Option FixSuggestion × Nat) : Prop :=
  ∀ a c, c ≤ (f a c).2 ∧
    ∀ fx, (f a c).1 = some fx →
      ∃ n, fx.fix_id = mkFixId n ∧ c < n ∧ n ≤ (f a c).2

theorem IdsOK_nil (c : Nat) : IdsOK c c [] :=
  ⟨le_refl c, [], rfl, List.chain'_nil, by simp⟩

theorem IdsOK_widen (c0 c1 c0b c1b : Nat) (fs : List FixSuggestion)
    (h : IdsOK c0 c1 fs) (h0 : c0b ≤ c0) (h1 : c1 ≤ c1b) : IdsOK c0b c1b fs := by
  rcases h with ⟨hle, ns, hmap, hchain, hbound⟩
  exact ⟨by omega, ns, hmap, hchain, fun n hn => by
    have := hbound n hn
    omega⟩

theorem IdsOK_append (c0 c1 c2 : Nat) (A B : List FixSuggestion)
    (hA : IdsOK c0 c1 A) (hB : IdsOK c1 c2 B) : IdsOK c0 c2 (A ++ B) := by
  rcases hA with ⟨hle1, nsA, hmapA, hchainA, hboundA⟩
  rcases hB with ⟨hle2, nsB, hmapB, hchainB, hboundB⟩
  refine ⟨by omega, nsA ++ nsB, ?_, ?_, ?_⟩
  · rw [List.map_append, List.map_append, hmapA, hmapB]
  · apply List.Chain'.append hchainA hchainB
    intro x hx y hy
    have hxm : x ∈ nsA := by
      cases hlast : nsA.getLast? with
      | none => rw [hlast] at hx; simp at hx
      | some z =>
        rw [hlast] at hx
        simp only [Option.mem_some_iff] at hx
        subst hx
        exact List.mem_of_mem_getLast? hlast
    have hym : y ∈ nsB := by
      cases hhead : nsB.head? with
      | none => rw [hhead] at hy; simp at hy
      | some z =>
        rw [hhead] at hy
        simp only [Option.mem_some_iff] at hy
        subst hy
        exact List.mem_of_mem_head? hhead
    have h1 := hboundA x hxm
    have h2 := hboundB y hym
    omega
  · intro n hn
    rcases List.mem_append.1 hn with h | h
    · have := hboundA n h
      omega
    · have := hboundB n h
      omega

theorem chainFold_IdsOK {α : Type} (f : α → Nat → Option FixSuggestion × Nat)
    (hf : StepOK f) (l : List α) (c : Nat) :
    IdsOK c (chainFold f l c).2 (chainFold f l c).1 := by
  induction l generalizing c with
  | nil => exact IdsOK_nil c
  | cons x xs ih =>
    rw [chainFold_cons]
    have hhead : IdsOK c ((f x c).2) ((f x c).1.toList) := by
      cases hopt : (f x c).1 with
      | none =>
        simp only [Option.toList_none]
        exact IdsOK_widen _ _ _ _ _ (IdsOK_nil c) (le_refl c) (hf x c).1
      | some fx =>
        rcases (hf x c).2 fx hopt with ⟨n, hid, hlt, hle⟩
        refine ⟨(hf x c).1, [n], ?_, List.chain'_singleton n, ?_⟩
        · simp [hid]
        · intro m hm
          rw [List.mem_singleton] at hm
          subst hm
          exact ⟨hlt, hle⟩
    exact IdsOK_append _ _ _ _ _ hhead (ih ((f x c).2))

theorem StepOK_emit_branch (pr : Option FixSuggestion × Nat) (c : Nat)
    (hsnd : pr.2 = c + 1)
    (hfst : ∀ fx, pr.1 = some fx → fx.fix_id = mkFixId (c + 1)) :
    c ≤ pr.2 ∧ ∀ fx, pr.1 = some fx →
      ∃ n, fx.fix_id = mkFixId n ∧ c < n ∧ n ≤ pr.2 := by
  constructor
  · omega
  · intro fx hfx
    exact ⟨c + 1, hfst fx hfx, by omega, by omega⟩

theorem StepOK_none_branch (pr : Option FixSuggestion × Nat) (c : Nat)
    (hsnd : pr.2 = c) (hfst : pr.1 = none) :
    c ≤ pr.2 ∧ ∀ fx, pr.1 = some fx →
      ∃ n, fx.fix_id = mkFixId n ∧ c < n ∧ n ≤ pr.2 := by
  constructor
  · omega
  · intro fx hfx
    rw [hfst] at hfx
    exact absurd hfx (by simp)

theorem StepOK_skip_branch (pr : Option FixSuggestion × Nat) (c : Nat)
    (hsnd : pr.2 = c + 1) (hfst : pr.1 = none) :
    c ≤ pr.2 ∧ ∀ fx, pr.1 = some fx →
      ∃ n, fx.fix_id = mkFixId n ∧ c < n ∧ n ≤ pr.2 := by
  constructor
  · omega
  · intro fx hfx
    rw [hfst] at hfx
    exact absurd hfx (by simp)

theorem unusedImportStep_ok (lines : List String) : StepOK (unusedImportStep lines) := by
  intro a c
  unfold unusedImportStep
  by_cases h : (lines.filter (fun l => hasSub l a.name)).length = 1
  · rw [if_pos h]
    exact StepOK_emit_branch _ c rfl (fun fx hfx => by
      have h2 := Option.some.inj hfx
      rw [← h2])
  · rw [if_neg h]
    exact StepOK_none_branch _ c rfl rfl

theorem trailStep_ok : StepOK trailStep := by
  intro a c
  unfold trailStep
  by_cases h : a.2 ≠ pyRstrip a.2
  · rw [if_pos h]
    exact StepOK_emit_branch _ c rfl (fun fx hfx => by
      have h2 := Option.some.inj hfx
      rw [← h2])
  · rw [if_neg h]
    exact StepOK_none_branch _ c rfl rfl

theorem docStep_ok (lines : List String) : StepOK (docStep lines) := by
  intro a c
  unfold docStep
  by_cases h : !a.hasDocstring
  · rw [if_pos h]
    exact StepOK_emit_branch _ c rfl (fun fx hfx => by
      have h2 := Option.some.inj hfx
      rw [← h2])
  · rw [if_neg h]
    exact StepOK_none_branch _ c rfl rfl

theorem noneCmpStep_ok : StepOK noneCmpStep := by
  intro a c
  unfold noneCmpStep
  by_cases h : searchEqNone a.2
  · rw [if_pos h]
    exact StepOK_emit_branch _ c rfl (fun fx hfx => by
      have h2 := Option.some.inj hfx
      rw [← h2])
  · rw [if_neg h]
    exact StepOK_none_branch _ c rfl rfl

theorem exceptStep_ok : StepOK exceptStep := by
  intro a c
  unfold exceptStep
  by_cases h : searchBareExcept a.2
  · rw [if_pos h]
    exact StepOK_emit_branch _ c rfl (fun fx hfx => by
      have h2 := Option.some.inj hfx
      rw [← h2])
  · rw [if_neg h]
    exact StepOK_none_branch _ c rfl rfl

theorem listCompStep_ok (lines : List String) : StepOK (listCompStep lines) := by
  intro a c
  unfold listCompStep
  by_cases h : hasSub (lines.getD a "") "for " && hasSub (lines.getD a "") " in " &&
      hasSub (lines.getD (a + 1) "") ".append("
  · rw [if_pos h]
    cases h1 : findForIn (lines.getD a "").data with
    | none =>
      exact StepOK_skip_branch _ c rfl rfl
    | some g =>
      cases h2 : findAppend (lines.getD (a + 1) "").data with
      | none =>
        exact StepOK_skip_branch _ c rfl rfl
      | some expr =>
        exact StepOK_emit_branch _ c rfl (fun fx hfx => by
          have h3 := Option.some.inj hfx
          rw [← h3])
  · rw [if_neg h]
    exact StepOK_none_branch _ c rfl rfl

theorem looseEqStep_ok : StepOK looseEqStep := by
  intro a c
  unfold looseEqStep
  by_cases h : searchLooseEq a.2
  · rw [if_pos h]
    exact StepOK_emit_branch _ c rfl (fun fx hfx => by
      have h2 := Option.some.inj hfx
      rw [← h2])
  · rw [if_neg h]
    exact StepOK_none_branch _ c rfl rfl

theorem varStep_ok : StepOK varStep := by
  intro a c
  unfold varStep
  by_cases h : searchVarWord a.2
  · rw [if_pos h]
    exact StepOK_emit_branch _ c rfl (fun fx hfx => by
      have h2 := Option.some.inj hfx
      rw [← h2])
  · rw [if_neg h]
    exact StepOK_none_branch _ c rfl rfl

theorem fix_unused_imports_IdsOK (astO : Option PyAst) (lines : List String) (c : Nat) :
    IdsOK c (fix_unused_imports astO lines c).2 (fix_unused_imports astO lines c).1 := by
  unfold fix_unused_imports
  cases astO with
  | none => exact IdsOK_nil c
  | some tree => exact chainFold_IdsOK _ (unusedImportStep_ok lines) tree.imports c

theorem fix_trailing_whitespace_IdsOK (lines : List String) (c : Nat) :
    IdsOK c (fix_trailing_whitespace lines c).2 (fix_trailing_whitespace lines c).1 :=
  chainFold_IdsOK _ trailStep_ok (List.enumFrom 1 lines) c

theorem fix_missing_docstrings_IdsOK (astO : Option PyAst) (lines : List String) (c : Nat) :
    IdsOK c (fix_missing_docstrings astO lines c).2 (fix_missing_docstrings astO lines c).1 := by
  unfold fix_missing_docstrings
  cases astO with
  | none => exact IdsOK_nil c
  | some tree => exact chainFold_IdsOK _ (docStep_ok lines) tree.defs c

theorem fix_none_comparison_IdsOK (lines : List String) (c : Nat) :
    IdsOK c (fix_none_comparison lines c).2 (fix_none_comparison lines c).1 :=
  chainFold_IdsOK _ noneCmpStep_ok (List.enumFrom 1 lines) c

theorem fix_bare_except_IdsOK (lines : List String) (c : Nat) :
    IdsOK c (fix_bare_except lines c).2 (fix_bare_except lines c).1 :=
  chainFold_IdsOK _ exceptStep_ok (List.enumFrom 1 lines) c

theorem suggest_list_comprehension_IdsOK (lines : List String) (c : Nat) :
    IdsOK c (suggest_list_comprehension lines c).2 (suggest_list_comprehension lines c).1 :=
  chainFold_IdsOK _ (listCompStep_ok lines) (List.range (lines.length - 2)) c

theorem fix_loose_equality_IdsOK (lines : List String) (c : Nat) :
    IdsOK c (fix_loose_equality lines c).2 (fix_loose_equality lines c).1 :=
  chainFold_IdsOK _ looseEqStep_ok (List.enumFrom 1 lines) c

theorem fix_var_usage_IdsOK (lines : List String) (c : Nat) :
    IdsOK c (fix_var_usage lines c).2 (fix_var_usage lines c).1 :=
  chainFold_IdsOK _ varStep_ok (List.enumFrom 1 lines) c

theorem analyze_python_IdsOK (astO : Option PyAst) (code : String) (c : Nat) :
    IdsOK c (analyze_python astO code c).2 (analyze_python astO code c).1 := by
  unfold analyze_python
  refine IdsOK_append _ _ _ _ _ ?_ (suggest_list_comprehension_IdsOK (splitLines code) _)
  refine IdsOK_append _ _ _ _ _ ?_ (fix_bare_except_IdsOK (splitLines code) _)
  refine IdsOK_append _ _ _ _ _ ?_ (fix_none_comparison_IdsOK (splitLines code) _)
  refine IdsOK_append _ _ _ _ _ ?_ (fix_missing_docstrings_IdsOK astO (splitLines code) _)
  exact IdsOK_append _ _ _ _ _ (fix_unused_imports_IdsOK astO (splitLines code) c)
    (fix_trailing_whitespace_IdsOK (splitLines code) _)

theorem analyze_javascript_IdsOK (code : String) (c : Nat) :
    IdsOK c (analyze_javascript code c).2 (analyze_javascript code c).1 := by
  unfold analyze_javascript
  exact IdsOK_append _ _ _ _ _ (fix_loose_equality_IdsOK (splitLines code) c)
    (fix_var_usage_IdsOK (splitLines code) _)

theorem analyze_code_IdsOK (code language : String) (astO : Option PyAst) (c : Nat) :
    IdsOK c (analyze_code code language astO c).2 (analyze_code code language astO c).1 := by
  unfold analyze_code
  by_cases h1 : language = "python"
  · rw [if_pos h1]
    exact analyze_python_IdsOK astO code c
  · rw [if_neg h1]
    by_cases h2 : language = "javascript" || language = "typescript"
    · rw [if_pos h2]
      exact analyze_javascript_IdsOK code c
    · rw [if_neg h2]
      exact IdsOK_nil c

theorem runAnalyses_IdsOK (inputs : List (String × String × Option PyAst)) (c : Nat) :
    IdsOK c (runAnalyses inputs c).2 (runAnalyses inputs c).1 := by
  induction inputs generalizing c with
  | nil => exact IdsOK_nil c
  | cons q rest ih =>
    show IdsOK c (runAnalyses rest (analyze_code q.1 q.2.1 q.2.2 c).2).2
      ((analyze_code q.1 q.2.1 q.2.2 c).1 ++ (runAnalyses rest (analyze_code q.1 q.2.1 q.2.2 c).2).1)
    exact IdsOK_append _ _ _ _ _ (analyze_code_IdsOK q.1 q.2.1 q.2.2 c)
      (ih ((analyze_code q.1 q.2.1 q.2.2 c).2))

theorem mkFixId_injective : Function.Injective mkFixId :=
  fun m n h => mkFixId_inj m n h

/-- C9: across any sequence of sequential `analyze_code` calls against
one AutoFixer instance (counter starting at 0, as `__init__` sets it),
all fix ids in all returned suggestions are pairwise distinct: each id
renders a counter value, and those values increase strictly over the
instance's lifetime. -/
theorem fix_ids_unique (inputs : List (String × String × Option PyAst)) :
    (((runAnalyses inputs 0).1).map (fun f => f.fix_id)).Nodup := by
  rcases runAnalyses_IdsOK inputs 0 with ⟨_, ns, hmap, hchain, _⟩
  rw [hmap]
  apply List.Nodup.map mkFixId_injective
  have hpw : ns.Pairwise (· < ·) := List.chain'_iff_pairwise.1 hchain
  exact hpw.imp Nat.ne_of_lt

end CodeVibe
